import Mathlib

/-!
Verification model of the denorid dependency-injection runtime.

The definitions below are a shallow embedding of the resolution engine:
`Container` (src/packages/injector/container.ts), the normalized providers
(`normalizeProvider`), the module compiler (`ModuleCompiler`), the request
context (`_request_context.ts`) and the orchestrator (`InjectorContext`).

Representation choices:
* Tokens, tags, container ids, request ids and instances are `Nat`.
  Instance identity (JS reference equality) is modelled by allocating
  instance values from a monotone fresh counter carried in the `World`.
* JS `Map`s are association lists with first-match lookup (so prepending
  models `Map.set` overwrite); JS `Set`s are insertion-ordered lists.
* Provider `resolve` functions are embedded as `RBody`: constant values
  (`useValue`), class instantiation with field dependencies
  (`instantiateClass` + `injectDependencies`), factories with an ordered
  inject list whose embedded function either returns a pre-existing value
  or allocates a fresh object, and aliases (`useExisting`).
* `async`/exceptions: computations return an explicit result carrying the
  mutated `World` on both success and failure (JS mutations survive a
  throw); recursion is bounded by a fuel counter, `RErr.fuelOut` standing
  for non-termination (which the JS runtime would also not survive).
-/

namespace Denorid

/-- Lifetime mode of a provider (`InjectableMode`); `other` stands for an
unrecognized custom mode string, which the container treats like
`transient`. -/
inductive Mode where
| singleton
| transient
| request
| other
deriving DecidableEq

/-- One declared field dependency of a class (`getInjectionDependencies`
entry): the token to resolve and whether the injection is optional. -/
structure Dep where
  token : Nat
  optional : Bool
deriving DecidableEq

/-- Embedded behaviour of a `useFactory` function: return a fixed
pre-existing value, or allocate a fresh object. -/
inductive FFn where
| constFn (v : Nat)
| freshFn
deriving DecidableEq

/-- Embedded provider `resolve` bodies, following `normalizeProvider`:
`value` for `useValue`, `classBody` for `instantiateClass` of a class with
its dependency list, `factory` for `useFactory` with its `inject` list,
`alias` for `useExisting`. -/
inductive RBody where
| value (v : Nat)
| classBody (deps : List Dep)
| factory (inject : List Nat) (fn : FFn)
| alias (target : Nat)
deriving DecidableEq

/-- A `NormalizedProvider`: token, mode and resolve body. -/
structure NProvider where
  token : Nat
  mode : Mode
  body : RBody
deriving DecidableEq

/-- State owned by one `Container`:  provider map, singleton cache,
in-flight resolution set (`resolving`), tracked instances, tag index,
children, export set, parent link and global-container reference. -/
structure ContState where
  providers : List (Nat × NProvider) := []
  singletons : List (Nat × Nat) := []
  resolving : List Nat := []
  instances : List Nat := []
  tagToTokens : List (Nat × List Nat) := []
  children : List Nat := []
  exports : List Nat := []
  parent : Option Nat := none
  globalC : Option Nat := none
deriving DecidableEq

/-- `RequestContextData`: the request id and the per-request instance
cache. -/
structure ReqCtx where
  rid : Nat
  instances : List (Nat × Nat) := []
deriving DecidableEq

/-- The whole mutable world: every container's state (indexed by container
id), the ambient request context (`AsyncLocalStorage` store) and the fresh
counter modelling object allocation. -/
structure World where
  conts : List (Nat × ContState) := []
  reqCtx : Option ReqCtx := none
  fresh : Nat := 0
deriving DecidableEq

/-- Association-list lookup, first match wins (JS `Map.get`). -/
def lookupA {α : Type} : List (Nat × α) → Nat → Option α
| [], _ => none
| (k, v) :: rest, t => if k = t then some v else lookupA rest t

/-- Association-list insert modelling `Map.set` overwrite (prepend wins
under `lookupA`). -/
def insertA {α : Type} (m : List (Nat × α)) (k : Nat) (v : α) :
    List (Nat × α) :=
  (k, v) :: m

/-- State of the container with id `cid` (missing ids read as a fresh
empty container, which never arises on the worlds we build). -/
def getC (w : World) (cid : Nat) : ContState :=
  (lookupA w.conts cid).getD {}

/-- Replace the state of container `cid`. -/
def setC (w : World) (cid : Nat) (s : ContState) : World :=
  { w with conts := insertA w.conts cid s }

/-- Update the state of container `cid`. -/
def updC (w : World) (cid : Nat) (f : ContState → ContState) : World :=
  setC w cid (f (getC w cid))

/-- `this.resolving.add(token)` (JS `Set.add`: no-op when present). -/
def addResolving (w : World) (cid : Nat) (t : Nat) : World :=
  updC w cid (fun s =>
    if t ∈ s.resolving then s else { s with resolving := s.resolving ++ [t] })

/-- `this.resolving.delete(token)`. -/
def eraseResolving (w : World) (cid : Nat) (t : Nat) : World :=
  updC w cid (fun s => { s with resolving := s.resolving.erase t })

/-- Errors of the resolution engine (`errors.ts`): circular dependency
with its token chain, token not found, request-scoped token outside a
request context; `fuelOut` is the out-of-fuel marker of the embedding. -/
inductive RErr where
| circular (chain : List Nat)
| notFound (token : Nat)
| reqContext (token : Nat)
| fuelOut
deriving DecidableEq

/-- Result of a resolution: value or error, in both cases with the world
as mutated so far. -/
inductive RRes where
| ok (v : Nat) (w : World)
| err (e : RErr) (w : World)
deriving DecidableEq

/-- Result of a `Unit`-valued effectful call (`injectDependencies`). -/
inductive URes where
| ok (w : World)
| err (e : RErr) (w : World)
deriving DecidableEq

/-- Result of resolving a list of factory arguments. -/
inductive LRes where
| ok (vs : List Nat) (w : World)
| err (e : RErr) (w : World)
deriving DecidableEq

/-- The world carried by a resolution result. -/
def RRes.world : RRes → World
| .ok _ w => w
| .err _ w => w

/-- The value of a successful resolution. -/
def RRes.value : RRes → Option Nat
| .ok v _ => some v
| .err _ _ => none

/-- The error of a failed resolution. -/
def RRes.errOf : RRes → Option RErr
| .ok _ _ => none
| .err e _ => some e

/-- The world carried by a `URes`. -/
def URes.world : URes → World
| .ok w => w
| .err _ w => w

/-- The world carried by an `LRes`. -/
def LRes.world : LRes → World
| .ok _ w => w
| .err _ w => w

mutual

/-- `Container.resolve` (container.ts:282-313): circular-dependency check
against the in-flight set, then own provider (dispatched by mode,
`resolveWithMode` inlined), then exported children in registration order
(a child's `TokenNotFoundError` continues the scan, any other error
propagates), then the global container if it has the token, else
`TokenNotFoundError`. -/
def Container.resolve : Nat → World → Nat → Nat → RRes
| 0, w, _, _ => .err .fuelOut w
| n+1, w, cid, t =>
  let s := getC w cid
  if t ∈ s.resolving then .err (.circular (s.resolving ++ [t])) w
  else
    match lookupA s.providers t with
    | some p =>
      match p.mode with
      | .singleton => Container.resolveSingleton n w cid t p
      | .transient => Container.resolveTransient n w cid p
      | .request => Container.resolveRequest n w cid t p
      | .other => Container.resolveTransient n w cid p
    | none => Container.scanChildren n w cid s.children t
termination_by structural fuel => fuel

/-- The child-container loop of `Container.resolve` followed by the
global-container fallback: each child that exports the token is tried;
`notFound` failures continue the scan, other failures propagate; when no
child matches, the global container (if set, distinct from this container
and holding a provider for the token) is delegated to, else the
resolution fails with `notFound`. -/
def Container.scanChildren : Nat → World → Nat → List Nat → Nat → RRes
| 0, w, _, _, _ => .err .fuelOut w
| n+1, w, cid, [], t =>
  match (getC w cid).globalC with
  | some g =>
    if g ≠ cid ∧ (lookupA (getC w g).providers t).isSome then
      Container.resolve n w g t
    else .err (.notFound t) w
  | none => .err (.notFound t) w
| n+1, w, cid, k :: ks, t =>
  if t ∈ (getC w k).exports then
    match Container.resolve n w k t with
    | .ok v w₂ => .ok v w₂
    | .err (.notFound _) w₂ => Container.scanChildren n w₂ cid ks t
    | .err e w₂ => .err e w₂
  else Container.scanChildren n w cid ks t
termination_by structural fuel => fuel

/-- `Container.resolveSingleton` (container.ts:645-665): cached instance
if present, else mark in-flight, run the provider body, cache the result,
append it to the tracked instances, and clear the in-flight marker on
both paths. -/
def Container.resolveSingleton : Nat → World → Nat → Nat → NProvider → RRes
| 0, w, _, _, _ => .err .fuelOut w
| n+1, w, cid, t, p =>
  match lookupA (getC w cid).singletons t with
  | some v => .ok v w
  | none =>
    let w₁ := addResolving w cid t
    match Container.runBody n w₁ cid p.body with
    | .ok v w₂ =>
      let w₃ := updC w₂ cid (fun s =>
        { s with singletons := insertA s.singletons t v,
                 instances := s.instances ++ [v] })
      .ok v (eraseResolving w₃ cid t)
    | .err e w₂ => .err e (eraseResolving w₂ cid t)
termination_by structural fuel => fuel

/-- `Container.resolveTransient` (container.ts:681-695): mark in-flight,
run the provider body, append to tracked instances and clear the marker;
never cached. -/
def Container.resolveTransient : Nat → World → Nat → NProvider → RRes
| 0, w, _, _ => .err .fuelOut w
| n+1, w, cid, p =>
  let w₁ := addResolving w cid p.token
  match Container.runBody n w₁ cid p.body with
  | .ok v w₂ =>
    let w₃ := updC w₂ cid (fun s => { s with instances := s.instances ++ [v] })
    .ok v (eraseResolving w₃ cid p.token)
  | .err e w₂ => .err e (eraseResolving w₂ cid p.token)
termination_by structural fuel => fuel

/-- `Container.resolveRequest` (container.ts:711-739): require an active
request context (else `RequestContextError`), return the scope-cached
instance if present, else mark in-flight, run the body, cache the result
into the request context only (the container's tracked-instances list is
left alone) and clear the marker. -/
def Container.resolveRequest : Nat → World → Nat → Nat → NProvider → RRes
| 0, w, _, _, _ => .err .fuelOut w
| n+1, w, cid, t, p =>
  match w.reqCtx with
  | none => .err (.reqContext t) w
  | some ctx =>
    match lookupA ctx.instances t with
    | some v => .ok v w
    | none =>
      let w₁ := addResolving w cid t
      match Container.runBody n w₁ cid p.body with
      | .ok v w₂ =>
        let w₃ := { w₂ with
          reqCtx := w₂.reqCtx.map (fun c =>
            { c with instances := insertA c.instances t v }) }
        .ok v (eraseResolving w₃ cid t)
      | .err e w₂ => .err e (eraseResolving w₂ cid t)
termination_by structural fuel => fuel

/-- Run a normalized provider's `resolve` function:  `useValue` returns
the constant; `useExisting` delegates to `Container.resolve` on the target
token; `useFactory` resolves the inject list in order then runs the
factory; a class body allocates the object (`new target()`) and then
injects its field dependencies. -/
def Container.runBody : Nat → World → Nat → RBody → RRes
| 0, w, _, _ => .err .fuelOut w
| n+1, w, cid, body =>
  match body with
  | .value v => .ok v w
  | .alias tgt => Container.resolve n w cid tgt
  | .factory inject fn =>
    match Container.factoryArgs n w cid inject with
    | .err e w₂ => .err e w₂
    | .ok _ w₂ =>
      match fn with
      | .constFn v => .ok v w₂
      | .freshFn => .ok w₂.fresh { w₂ with fresh := w₂.fresh + 1 }
  | .classBody deps =>
    let v := w.fresh
    let w₁ := { w with fresh := w.fresh + 1 }
    match Container.injectDependencies n w₁ cid deps with
    | .ok w₂ => .ok v w₂
    | .err e w₂ => .err e w₂
termination_by structural fuel => fuel

/-- Resolve the `inject` tokens of a factory provider, in declaration
order; the first failure propagates. -/
def Container.factoryArgs : Nat → World → Nat → List Nat → LRes
| 0, w, _, _ => .err .fuelOut w
| _+1, w, _, [] => .ok [] w
| n+1, w, cid, t :: ts =>
  match Container.resolve n w cid t with
  | .ok v w₂ =>
    match Container.factoryArgs n w₂ cid ts with
    | .ok vs w₃ => .ok (v :: vs) w₃
    | .err e w₃ => .err e w₃
  | .err e w₂ => .err e w₂
termination_by structural fuel => fuel

/-- `Container.injectDependencies` (container.ts:467-486): resolve each
declared dependency in order and assign it; a dependency marked optional
that fails with `TokenNotFoundError` is skipped, every other failure
propagates. -/
def Container.injectDependencies : Nat → World → Nat → List Dep → URes
| 0, w, _, _ => .err .fuelOut w
| _+1, w, _, [] => .ok w
| n+1, w, cid, d :: ds =>
  match Container.resolve n w cid d.token with
  | .ok _ w₂ => Container.injectDependencies n w₂ cid ds
  | .err e w₂ =>
    match e, d.optional with
    | .notFound _, true => Container.injectDependencies n w₂ cid ds
    | _, _ => .err e w₂

termination_by structural fuel => fuel
end

/-- `normalizeProvider` on a `useValue` provider: token = `provide`, mode
fixed to singleton, body returns the constant. -/
def normalizeValue (provide v : Nat) : NProvider :=
  ⟨provide, .singleton, .value v⟩

/-- `normalizeProvider` on a `useExisting` provider: token = `provide`,
mode fixed to singleton, body delegates resolution of the target. -/
def normalizeExisting (provide target : Nat) : NProvider :=
  ⟨provide, .singleton, .alias target⟩

/-- `normalizeProvider` on a `useFactory` provider: token = `provide`,
mode = the explicit mode when given else singleton (the class-metadata
default of a class-valued `provide` is not modelled), body resolves the
inject list then runs the factory. -/
def normalizeFactory (provide : Nat) (inject : List Nat) (fn : FFn)
    (mode : Option Mode) : NProvider :=
  ⟨provide, mode.getD .singleton, .factory inject fn⟩

/-- `normalizeProvider` on a bare class (or `useClass`) provider: token =
the class, mode = the class's declared mode or singleton, body
instantiates the class. -/
def normalizeClass (cls : Nat) (mode : Option Mode) (deps : List Dep) :
    NProvider :=
  ⟨cls, mode.getD .singleton, .classBody deps⟩

/-- `runInRequestContext` entry: install a fresh request context with the
given id and an empty instance cache. -/
def enterRequestScope (w : World) (rid : Nat) : World :=
  { w with reqCtx := some { rid := rid, instances := [] } }

/-- Leaving `runInRequestContext`: the scoped store is discarded. -/
def exitRequestScope (w : World) : World :=
  { w with reqCtx := none }

/-- The token set a container's tag index holds for `tag`
(`this.tagToTokens.get(tag)`, absent reading as empty). -/
def tagTokens (s : ContState) (tag : Nat) : List Nat :=
  (lookupA s.tagToTokens tag).getD []

/-- Resolve a list of tag-indexed tokens on container `cid`, collecting
the successful instances in order; a failing token is swallowed and
simply omitted (the `catch {}` of `getByTag`). -/
def Container.resolveTagTokens :
    Nat → World → Nat → List Nat → List Nat × World
| _, w, _, [] => ([], w)
| fuel, w, cid, t :: ts =>
  match Container.resolve fuel w cid t with
  | .ok v w₂ =>
    let r := Container.resolveTagTokens fuel w₂ cid ts
    (v :: r.1, r.2)
  | .err _ w₂ => Container.resolveTagTokens fuel w₂ cid ts

/-- The loop of `Container.getExportedByTag` (container.ts:752-771) over
the container's own tag-indexed tokens: only exported tokens are
resolved, failures are swallowed. -/
def Container.exportedTagLoop :
    Nat → World → Nat → List Nat → List Nat × World
| _, w, _, [] => ([], w)
| fuel, w, cid, t :: ts =>
  if t ∈ (getC w cid).exports then
    match Container.resolve fuel w cid t with
    | .ok v w₂ =>
      let r := Container.exportedTagLoop fuel w₂ cid ts
      (v :: r.1, r.2)
    | .err _ w₂ => Container.exportedTagLoop fuel w₂ cid ts
  else Container.exportedTagLoop fuel w cid ts

/-- `Container.getExportedByTag`: the exported tagged providers of this
container only (its own tag index — grandchildren are not consulted). -/
def Container.getExportedByTag (fuel : Nat) (w : World) (cid tag : Nat) :
    List Nat × World :=
  Container.exportedTagLoop fuel w cid (tagTokens (getC w cid) tag)

/-- The child loop of `Container.getByTag`: append every child's
`getExportedByTag` result in registration order. -/
def Container.childTagLoop :
    Nat → World → List Nat → Nat → List Nat × World
| _, w, [], _ => ([], w)
| fuel, w, k :: ks, tag =>
  let r₁ := Container.getExportedByTag fuel w k tag
  let r₂ := Container.childTagLoop fuel r₁.2 ks tag
  (r₁.1 ++ r₂.1, r₂.2)

/-- `Container.getByTag` (container.ts:357-394): resolve the container's
own tag-indexed tokens (failures omitted), then each child's exported
tagged tokens, then — when a distinct global container is configured —
the global container's tagged tokens resolved on the global container
(failures omitted). -/
def Container.getByTag (fuel : Nat) (w : World) (cid tag : Nat) :
    List Nat × World :=
  let own := Container.resolveTagTokens fuel w cid (tagTokens (getC w cid) tag)
  let kids := Container.childTagLoop fuel own.2 (getC w cid).children tag
  match (getC kids.2 cid).globalC with
  | some g =>
    if g ≠ cid then
      let glob :=
        Container.resolveTagTokens fuel kids.2 g (tagTokens (getC kids.2 g) tag)
      (own.1 ++ kids.1 ++ glob.1, glob.2)
    else (own.1 ++ kids.1, kids.2)
  | none => (own.1 ++ kids.1, kids.2)

/-- `Container.clear` (container.ts:539-544): drop this container's
providers, singleton cache, tracked instances and tag index; children,
exports, parent, global reference and the in-flight set are untouched,
and no other container is affected. -/
def Container.clear (w : World) (cid : Nat) : World :=
  updC w cid (fun s =>
    { s with providers := [], singletons := [], instances := [],
             tagToTokens := [] })

/-- De-duplication keeping the first occurrence (`[...new Set(l)]`). -/
def dedupFirst : List Nat → List Nat → List Nat
| _, [] => []
| seen, x :: xs =>
  if x ∈ seen then dedupFirst seen xs else x :: dedupFirst (x :: seen) xs

/-- `Container.getInstances({recursive: true})` (container.ts:496-508):
this container's tracked instances followed by every child's, recursively,
de-duplicated keeping the first occurrence. Fueled against cyclic child
graphs. -/
def Container.getInstancesRec : Nat → World → Nat → List Nat
| 0, _, _ => []
| n+1, w, cid =>
  let s := getC w cid
  dedupFirst []
    (s.instances ++
      (s.children.map (Container.getInstancesRec n w)).flatten)

/-- Lifecycle phases of the orchestrator. -/
inductive Phase where
| boot
| beforeShutdown
| destroy
| shutdown
deriving DecidableEq

/-- Embedded behaviour of one instance's hook for one phase: the hook is
absent, returns normally, or throws the error `e`. -/
inductive HookBeh where
| absent
| succeeds
| throws (e : Nat)
deriving DecidableEq

/-- One sweep of a lifecycle phase over the tracked instances: every
instance exposing the hook is invoked (first component, in order);
thrown errors are collected (second component) instead of aborting the
sweep. -/
def sweep (hb : Nat → HookBeh) : List Nat → List Nat × List Nat
| [] => ([], [])
| i :: rest =>
  let r := sweep hb rest
  match hb i with
  | .absent => r
  | .succeeds => (i :: r.1, r.2)
  | .throws e => (i :: r.1, e :: r.2)

/-- `LifecycleError` (errors.ts:86-103): the phase name and the collected
underlying errors. -/
structure LifecycleError where
  phase : String
  errors : List Nat
deriving DecidableEq

/-- The state of an `InjectorContext`: root container id, the compiled
root module's type, export set and own-token set, and the two lifecycle
guard flags. -/
structure ICtx where
  rootCid : Nat
  rootType : Nat
  rootExports : List Nat
  rootOwnTokens : List Nat
  isBootstrapped : Bool := false
  isShuttingDown : Bool := false
deriving DecidableEq

/-- `InjectorContext.resolve` (injector_context.ts): the root module's own
type and its exported tokens are delegated to the root container; an
unexported own token fails with `TokenNotFoundError`; every other token is
delegated to the root container. -/
def InjectorContext.resolve (fuel : Nat) (c : ICtx) (w : World) (t : Nat) :
    RRes :=
  if t = c.rootType then Container.resolve fuel w c.rootCid t
  else if t ∈ c.rootExports then Container.resolve fuel w c.rootCid t
  else if t ∈ c.rootOwnTokens then .err (.notFound t) w
  else Container.resolve fuel w c.rootCid t

/-- Output of a lifecycle phase: the ids whose hook was invoked (in
invocation order), the aggregate failure if any hook threw, and the
resulting world and context state. -/
structure LcOut where
  called : List Nat
  failure : Option LifecycleError
  w : World
  c : ICtx
deriving DecidableEq

/-- `InjectorContext.onApplicationBootstrap`: one-shot (guarded by
`isBootstrapped`); sweeps the bootstrap hook over all tracked instances of
the whole container tree, collecting failures, and raises one aggregate
`LifecycleError` at the end if any occurred. -/
def InjectorContext.onApplicationBootstrap (fuel : Nat)
    (hooks : Nat → Phase → HookBeh) (c : ICtx) (w : World) : LcOut :=
  if c.isBootstrapped then ⟨[], none, w, c⟩
  else
    let insts := Container.getInstancesRec fuel w c.rootCid
    let r := sweep (fun i => hooks i .boot) insts
    ⟨r.1,
     if r.2 = [] then none else some ⟨"onApplicationBootstrap", r.2⟩,
     w, { c with isBootstrapped := true }⟩

/-- `InjectorContext.onBeforeApplicationShutdown`: one-shot (guarded by
`isShuttingDown`); sweeps the before-shutdown hook over all tracked
instances in reverse creation order, aggregating failures. -/
def InjectorContext.onBeforeApplicationShutdown (fuel : Nat)
    (hooks : Nat → Phase → HookBeh) (c : ICtx) (w : World) : LcOut :=
  if c.isShuttingDown then ⟨[], none, w, c⟩
  else
    let insts := Container.getInstancesRec fuel w c.rootCid
    let r := sweep (fun i => hooks i .beforeShutdown) insts.reverse
    ⟨r.1,
     if r.2 = [] then none
     else some ⟨"onBeforeApplicationShutdown", r.2⟩,
     w, { c with isShuttingDown := true }⟩

/-- `InjectorContext.onApplicationShutdown`: unguarded; one reverse-order
pass of the module-destroy hook, then one reverse-order pass of the
application-shutdown hook, errors of both passes collected into one list;
the root container is always cleared afterwards, and a single aggregate
`LifecycleError` is raised if any hook threw. -/
def InjectorContext.onApplicationShutdown (fuel : Nat)
    (hooks : Nat → Phase → HookBeh) (c : ICtx) (w : World) : LcOut :=
  let insts := Container.getInstancesRec fuel w c.rootCid
  let r₁ := sweep (fun i => hooks i .destroy) insts.reverse
  let r₂ := sweep (fun i => hooks i .shutdown) insts.reverse
  ⟨r₁.1 ++ r₂.1,
   if r₁.2 ++ r₂.2 = [] then none else some ⟨"shutdown", r₁.2 ++ r₂.2⟩,
   Container.clear w c.rootCid, c⟩

/-- A `CompiledModule` for the purposes of the traversal orders: its type
identity and its compiled imports. The compiler memoizes compiled modules
by type, so object identity in the source coincides with structural
equality here. -/
inductive CM where
| mk (mtype : Nat) (imports : List CM)

/-- The imports of a compiled module. -/
def CM.imports : CM → List CM
| .mk _ l => l

/-- The type identity of a compiled module. -/
def CM.mtype : CM → Nat
| .mk t _ => t

mutual

/-- Decidable structural (= object, under compiler memoization) equality
of compiled modules. -/
def CM.decEq : (a b : CM) → Decidable (a = b)
| .mk t1 l1, .mk t2 l2 =>
  match Nat.decEq t1 t2 with
  | isFalse h => isFalse (by intro he; cases he; exact h rfl)
  | isTrue h1 =>
    match CM.decEqList l1 l2 with
    | isFalse h => isFalse (by intro he; cases he; exact h rfl)
    | isTrue h2 => isTrue (by rw [h1, h2])

/-- Decidable equality of compiled-module lists. -/
def CM.decEqList : (a b : List CM) → Decidable (a = b)
| [], [] => isTrue rfl
| [], _ :: _ => isFalse (by intro h; cases h)
| _ :: _, [] => isFalse (by intro h; cases h)
| a :: as, b :: bs =>
  match CM.decEq a b with
  | isFalse h => isFalse (by intro he; cases he; exact h rfl)
  | isTrue h1 =>
    match CM.decEqList as bs with
    | isFalse h => isFalse (by intro he; cases he; exact h rfl)
    | isTrue h2 => isTrue (by rw [h1, h2])

end

instance : DecidableEq CM := CM.decEq

mutual

/-- The recursive `visit` closure of
`ModuleCompiler.getModulesInInitOrder` (container.ts:905-924): skip
already-visited modules, otherwise mark visited, visit every import
depth-first, then append the module itself (post-order). -/
def ModuleCompiler.visit : CM → List CM → List CM → (List CM × List CM)
| .mk t imps, vis, out =>
  if (CM.mk t imps) ∈ vis then (vis, out)
  else
    let p := ModuleCompiler.visitList imps ((CM.mk t imps) :: vis) out
    (p.1, p.2 ++ [CM.mk t imps])

/-- The `for (const imported of mod.imports)` loop of `visit`. -/
def ModuleCompiler.visitList :
    List CM → List CM → List CM → (List CM × List CM)
| [], vis, out => (vis, out)
| m :: ms, vis, out =>
  let p := ModuleCompiler.visit m vis out
  ModuleCompiler.visitList ms p.1 p.2

end

/-- `ModuleCompiler.getModulesInInitOrder` (container.ts:905-924). -/
def ModuleCompiler.getModulesInInitOrder (root : CM) : List CM :=
  (ModuleCompiler.visit root [] []).2

/-- `ModuleCompiler.getModulesInDestroyOrder` (container.ts:933-935):
the init order reversed. -/
def ModuleCompiler.getModulesInDestroyOrder (root : CM) : List CM :=
  (ModuleCompiler.getModulesInInitOrder root).reverse

/-- Reachability in the compiled import graph: the modules a traversal
from `m` can see. -/
inductive CM.Reach : CM → CM → Prop
| refl (m : CM) : CM.Reach m m
| step {m i x : CM} (hi : i ∈ CM.imports m) (h : CM.Reach i x) :
    CM.Reach m x

/-- Whether a hook behaviour means the instance exposes the hook. -/
def hookPresent : HookBeh → Bool
| .absent => false
| .succeeds => true
| .throws _ => true

/-- The error a hook behaviour throws, if any. -/
def hookErr : HookBeh → Option Nat
| .throws e => some e
| _ => none

/-- Modelled from the spec (amended): the full best-effort tag-query plan
of `getByTag` as (resolving container, token) pairs — the container's own
tag-indexed tokens resolved on itself, then for each child (in
registration order) the child's own exported tagged tokens resolved on the
child, then (when a distinct global container is configured) the global
container's tagged tokens resolved on the global container. -/
def tagQueryPlan (w : World) (cid tag : Nat) : List (Nat × Nat) :=
  ((tagTokens (getC w cid) tag).map (fun t => (cid, t))) ++
  ((getC w cid).children.map (fun k =>
    ((tagTokens (getC w k) tag).filter
      (fun t => t ∈ (getC w k).exports)).map (fun t => (k, t)))).flatten ++
  (match (getC w cid).globalC with
   | some g =>
     if g ≠ cid then (tagTokens (getC w g) tag).map (fun t => (g, t))
     else []
   | none => [])

/-- Modelled from the spec (amended): execute a tag-query plan in order,
resolving each token on its designated container and omitting every
token whose resolution fails. -/
def resolvePlan : Nat → World → List (Nat × Nat) → List Nat × World
| _, w, [] => ([], w)
| fuel, w, (c, t) :: rest =>
  match Container.resolve fuel w c t with
  | .ok v w₂ =>
    let r := resolvePlan fuel w₂ rest
    (v :: r.1, r.2)
  | .err _ w₂ => resolvePlan fuel w₂ rest

/-- The resolver's frame invariant: resolution never registers providers,
never touches the tag index, the child lists, the export sets or the
global references of any container, and the fresh allocation counter is
monotone. -/
def WInv (w w₂ : World) : Prop :=
  w.fresh ≤ w₂.fresh ∧
  ∀ c, (getC w₂ c).providers = (getC w c).providers ∧
       (getC w₂ c).tagToTokens = (getC w c).tagToTokens ∧
       (getC w₂ c).children = (getC w c).children ∧
       (getC w₂ c).exports = (getC w c).exports ∧
       (getC w₂ c).globalC = (getC w c).globalC

/-- Invariants of the traversal accumulators of `ModuleCompiler.visit`:
the emitted list has no duplicates, is contained in the visited set, the
visited set is closed under reachability from emitted modules, and every
emitted module's imports were emitted before it. -/
def OutPre (vis out : List CM) : Prop :=
  out.Nodup ∧ (∀ x ∈ out, x ∈ vis) ∧
  (∀ y ∈ out, ∀ x, CM.Reach y x → x ∈ vis) ∧
  (∀ pre y post, out = pre ++ y :: post → ∀ i ∈ CM.imports y, i ∈ pre)

/-- Relation between the accumulators before and after a `visit` step:
the output grows by appending, the visited set grows, the visited-but-
not-yet-emitted set (the ancestor chain) is unchanged, and the
accumulator invariants are preserved. -/
def OutPost (vis out vis₂ out₂ : List CM) : Prop :=
  (∃ d, out₂ = out ++ d) ∧ (∀ x ∈ vis, x ∈ vis₂) ∧
  (∀ x, (x ∈ vis₂ ∧ x ∉ out₂) ↔ (x ∈ vis ∧ x ∉ out)) ∧
  OutPre vis₂ out₂

-- Concrete example containers, modules and hooks used by the witnesses
-- and counterexamples below.

/-- A container holding one singleton value provider. -/
def wVal : World :=
  { conts := [(0, { providers := [(5, normalizeValue 5 42)] })] }

/-- Parent container 0 with child 1; the child holds a provider for
token 7 but does not export it. -/
def wEx1 : World :=
  { conts := [
      (0, { children := [1] }),
      (1, { providers := [(7, normalizeValue 7 5)] })] }

/-- An orchestrator whose root module owns tokens 7, 8 and 100 (its own
type) but exports only 7. -/
def cEx2 : ICtx :=
  { rootCid := 0, rootType := 100, rootExports := [7],
    rootOwnTokens := [7, 8, 100] }

/-- Root container for `cEx2`, holding providers for both own tokens. -/
def wEx2 : World :=
  { conts := [(0, { providers :=
      [(8, normalizeValue 8 1), (7, normalizeValue 7 2)] })] }

/-- A provider depending directly on itself. -/
def wC3a : World :=
  { conts := [(0, { providers :=
      [(1, normalizeClass 1 none [⟨1, false⟩])] })] }

/-- Two providers in a dependency cycle (1 → 2 → 1). -/
def wC3b : World :=
  { conts := [(0, { providers :=
      [(1, normalizeClass 1 none [⟨2, false⟩]),
       (2, normalizeClass 2 none [⟨1, false⟩])] })] }

/-- Token 1 depends on 2, and 2 depends on itself before depending on 1:
resolution of 1 hits the 2-cycle first. -/
def wC3c : World :=
  { conts := [(0, { providers :=
      [(1, normalizeClass 1 none [⟨2, false⟩]),
       (2, normalizeClass 2 none [⟨2, false⟩, ⟨1, false⟩])] })] }

/-- A transient factory provider returning a fixed pre-existing value. -/
def wC4 : World :=
  { conts := [(0, { providers :=
      [(7, normalizeFactory 7 [] (.constFn 42) (some .transient))] })] }

/-- A transient dependency-free class provider. -/
def wC4b : World :=
  { conts := [(0, { providers :=
      [(7, normalizeClass 7 (some .transient) [])] })] }

/-- An alias token 4 for a singleton class target 3. -/
def wC5 : World :=
  { conts := [(0, { providers :=
      [(3, normalizeClass 3 none []),
       (4, normalizeExisting 4 3)] })] }

/-- An alias token 4 for a transient class target 3. -/
def wC5t : World :=
  { conts := [(0, { providers :=
      [(3, normalizeClass 3 (some .transient) []),
       (4, normalizeExisting 4 3)] })] }

/-- A request-scoped dependency-free class provider. -/
def wC7 : World :=
  { conts := [(0, { providers :=
      [(5, normalizeClass 5 (some .request) [])] })] }

/-- A request-scoped factory provider returning a fixed value. -/
def wC7f : World :=
  { conts := [(0, { providers :=
      [(5, normalizeFactory 5 [] (.constFn 99) (some .request))] })] }

/-- A root container tracking five instances. -/
def wEx8 : World :=
  { conts := [(0, { instances := [1, 2, 3, 4, 5] })] }

/-- An orchestrator over `wEx8`. -/
def cEx8 : ICtx :=
  { rootCid := 0, rootType := 50, rootExports := [], rootOwnTokens := [50] }

/-- Bootstrap hooks for `wEx8`: all five instances expose the hook,
instances 2 and 4 throw. -/
def hEx8 : Nat → Phase → HookBeh := fun i ph =>
  match ph with
  | .boot =>
    if i = 2 then .throws 21 else if i = 4 then .throws 22 else .succeeds
  | _ => .absent

/-- Parent 0 → child 1 → grandchild 2; the grandchild owns, tags and
exports token 55, and the child re-exports it (without tagging it). -/
def wC9 : World :=
  { conts := [
      (0, { children := [1] }),
      (1, { children := [2], exports := [55] }),
      (2, { providers := [(55, normalizeValue 55 9)], exports := [55],
            tagToTokens := [(9, [55])] })] }

/-- Root 0 with providers, instances and a tag index, and a child 1 with
its own providers and instances. -/
def wC10 : World :=
  { conts := [
      (0, { providers := [(5, normalizeValue 5 42)],
            singletons := [(5, 42)], instances := [42],
            tagToTokens := [(1, [5])], children := [1], exports := [5] }),
      (1, { providers := [(6, normalizeValue 6 43)],
            singletons := [(6, 43)], instances := [43] })] }

/-- An orchestrator whose root container is `wC10`'s container 0. -/
def cEx10 : ICtx :=
  { rootCid := 0, rootType := 60, rootExports := [], rootOwnTokens := [60] }

/-- Diamond-shaped compiled module graph: root imports B and C, which
both import D. -/
def exD : CM := .mk 3 []

/-- Module B of the diamond. -/
def exB : CM := .mk 1 [exD]

/-- Module C of the diamond. -/
def exC : CM := .mk 2 [exD]

/-- Root of the diamond. -/
def exRoot : CM := .mk 0 [exB, exC]

/-- The state update a successful singleton resolution commits: cache the
value, append it to the tracked instances, clear the in-flight marker. -/
def singletonCommit (w : World) (cid t v : Nat) : World :=
  eraseResolving (updC w cid (fun s =>
    { s with singletons := insertA s.singletons t v,
             instances := s.instances ++ [v] })) cid t

-- Helper lemmas about the world primitives.

theorem lookupA_insert_self {α : Type} (m : List (Nat × α)) (k : Nat)
    (v : α) : lookupA (insertA m k v) k = some v := by
  simp [insertA, lookupA]

theorem lookupA_insert_ne {α : Type} (m : List (Nat × α)) {k k₂ : Nat}
    (v : α) (h : k ≠ k₂) : lookupA (insertA m k v) k₂ = lookupA m k₂ := by
  simp [insertA, lookupA, h]

theorem getC_setC_self (w : World) (cid : Nat) (s : ContState) :
    getC (setC w cid s) cid = s := by
  simp [getC, setC, lookupA_insert_self]

theorem getC_setC_ne (w : World) (cid : Nat) (s : ContState) {c₂ : Nat}
    (h : c₂ ≠ cid) : getC (setC w cid s) c₂ = getC w c₂ := by
  simp [getC, setC, lookupA_insert_ne _ _ (Ne.symm h)]

theorem getC_updC_self (w : World) (cid : Nat) (f : ContState → ContState) :
    getC (updC w cid f) cid = f (getC w cid) := by
  simp [updC, getC_setC_self]

theorem getC_updC_ne (w : World) (cid : Nat) (f : ContState → ContState)
    {c₂ : Nat} (h : c₂ ≠ cid) : getC (updC w cid f) c₂ = getC w c₂ := by
  simp [updC, getC_setC_ne _ _ _ h]

theorem sweep_called (hb : Nat → HookBeh) (l : List Nat) :
    (sweep hb l).1 = l.filter (fun i => hookPresent (hb i)) := by
  induction l with
  | nil => rfl
  | cons i rest ih =>
    cases hbi : hb i <;>
      simp [sweep, List.filter_cons, hbi, hookPresent, ih]

theorem sweep_errors (hb : Nat → HookBeh) (l : List Nat) :
    (sweep hb l).2 = l.filterMap (fun i => hookErr (hb i)) := by
  induction l with
  | nil => rfl
  | cons i rest ih =>
    cases hbi : hb i <;>
      simp [sweep, List.filterMap_cons, hbi, hookErr, ih]

-- Claim C2: export-scoped resolution of the orchestrator.

/-- C2: `InjectorContext.resolve` delegates to the root container when the
token is the root module's own type or lies in the root module's export
set; one of the root module's own tokens that is neither the root type nor
exported fails with token-not-found even though the root container holds a
provider for it; every other token is delegated to the root container. -/
theorem claim2_context_resolve_export_boundary (fuel : Nat) (c : ICtx)
    (w : World) (t : Nat) :
    (t = c.rootType →
      InjectorContext.resolve fuel c w t =
        Container.resolve fuel w c.rootCid t) ∧
    (t ∈ c.rootExports →
      InjectorContext.resolve fuel c w t =
        Container.resolve fuel w c.rootCid t) ∧
    (t ≠ c.rootType → t ∉ c.rootExports → t ∈ c.rootOwnTokens →
      (lookupA (getC w c.rootCid).providers t).isSome →
      InjectorContext.resolve fuel c w t = .err (.notFound t) w) ∧
    (t ≠ c.rootType → t ∉ c.rootExports → t ∉ c.rootOwnTokens →
      InjectorContext.resolve fuel c w t =
        Container.resolve fuel w c.rootCid t) := by
  refine ⟨?_, ?_, ?_, ?_⟩
  · intro h
    simp [InjectorContext.resolve, h]
  · intro h
    by_cases ht : t = c.rootType <;> simp [InjectorContext.resolve, h, ht]
  · intro h1 h2 h3 _
    simp [InjectorContext.resolve, h1, h2, h3]
  · intro h1 h2 h3
    simp [InjectorContext.resolve, h1, h2, h3]

/-- Witness for C2: in `cEx2`/`wEx2` token 8 is an own token of the root
module, has a registered provider, but is not exported: context
resolution fails with token-not-found. -/
theorem claim2_witness :
    ((8 : Nat) ≠ cEx2.rootType ∧ (8 : Nat) ∉ cEx2.rootExports ∧
     (8 : Nat) ∈ cEx2.rootOwnTokens ∧
     (lookupA (getC wEx2 cEx2.rootCid).providers 8).isSome) ∧
    InjectorContext.resolve 5 cEx2 wEx2 8 = .err (.notFound 8) wEx2 :=
  ⟨⟨by decide, by decide, by decide, by decide⟩,
   (claim2_context_resolve_export_boundary 5 cEx2 wEx2 8).2.2.1
     (by decide) (by decide) (by decide) (by decide)⟩

-- Claim C10: clear() is local to one container.

/-- C10: `Container.clear` empties exactly the container's own provider
map, singleton cache, tracked instances and tag index, leaves its
children list, export set, parent link and global reference unchanged,
leaves every other container untouched, and
`InjectorContext.onApplicationShutdown` clears exactly the root
container, so children keep their providers and instances. -/
theorem claim10_clear_is_local (w : World) (cid : Nat) :
    ((getC (Container.clear w cid) cid).providers = [] ∧
     (getC (Container.clear w cid) cid).singletons = [] ∧
     (getC (Container.clear w cid) cid).instances = [] ∧
     (getC (Container.clear w cid) cid).tagToTokens = []) ∧
    ((getC (Container.clear w cid) cid).children = (getC w cid).children ∧
     (getC (Container.clear w cid) cid).exports = (getC w cid).exports ∧
     (getC (Container.clear w cid) cid).parent = (getC w cid).parent ∧
     (getC (Container.clear w cid) cid).globalC = (getC w cid).globalC) ∧
    (∀ c₂, c₂ ≠ cid → getC (Container.clear w cid) c₂ = getC w c₂) ∧
    (∀ (fuel : Nat) (hooks : Nat → Phase → HookBeh) (c : ICtx),
      c.rootCid = cid →
      (InjectorContext.onApplicationShutdown fuel hooks c w).w =
        Container.clear w cid ∧
      ∀ c₂, c₂ ≠ cid →
        getC (InjectorContext.onApplicationShutdown fuel hooks c w).w c₂ =
          getC w c₂) := by
  refine ⟨?_, ?_, ?_, ?_⟩
  · simp [Container.clear, getC_updC_self]
  · simp [Container.clear, getC_updC_self]
  · intro c₂ h
    simp [Container.clear, getC_updC_ne _ _ _ h]
  · intro fuel hooks c hc
    subst hc
    refine ⟨rfl, ?_⟩
    intro c₂ h
    simp [InjectorContext.onApplicationShutdown, Container.clear,
      getC_updC_ne _ _ _ h]

/-- Witness for C10: shutting down the orchestrator over `wC10` clears
root container 0 while child container 1 keeps its provider, singleton
and tracked instance. -/
theorem claim10_witness :
    (cEx10.rootCid = 0 ∧ (1 : Nat) ≠ 0) ∧
    ((InjectorContext.onApplicationShutdown 3 hEx8 cEx10 wC10).w =
        Container.clear wC10 0 ∧
      ∀ c₂, c₂ ≠ 0 →
        getC (InjectorContext.onApplicationShutdown 3 hEx8 cEx10 wC10).w c₂ =
          getC wC10 c₂) :=
  ⟨⟨rfl, by decide⟩,
   (claim10_clear_is_local wC10 0).2.2.2 3 hEx8 cEx10 rfl⟩

-- Claim C8: lifecycle sweeps aggregate hook failures.

/-- C8: in every lifecycle phase every tracked instance exposing the hook
is invoked, regardless of other hooks throwing; the phase raises one
aggregate failure listing exactly the thrown errors, and no failure when
no hook throws. Bootstrap sweeps in creation order, before-shutdown in
reverse order, and shutdown runs the destroy pass then the shutdown pass
(both in reverse order) with one combined error list. -/
theorem claim8_lifecycle_aggregates_failures (fuel : Nat)
    (hooks : Nat → Phase → HookBeh) (c : ICtx) (w : World) :
    (c.isBootstrapped = false →
      (InjectorContext.onApplicationBootstrap fuel hooks c w).called =
        (Container.getInstancesRec fuel w c.rootCid).filter
          (fun i => hookPresent (hooks i .boot)) ∧
      (InjectorContext.onApplicationBootstrap fuel hooks c w).failure =
        (if (Container.getInstancesRec fuel w c.rootCid).filterMap
              (fun i => hookErr (hooks i .boot)) = [] then none
         else some ⟨"onApplicationBootstrap",
            (Container.getInstancesRec fuel w c.rootCid).filterMap
              (fun i => hookErr (hooks i .boot))⟩)) ∧
    (c.isShuttingDown = false →
      (InjectorContext.onBeforeApplicationShutdown fuel hooks c w).called =
        (Container.getInstancesRec fuel w c.rootCid).reverse.filter
          (fun i => hookPresent (hooks i .beforeShutdown)) ∧
      (InjectorContext.onBeforeApplicationShutdown fuel hooks c w).failure =
        (if (Container.getInstancesRec fuel w c.rootCid).reverse.filterMap
              (fun i => hookErr (hooks i .beforeShutdown)) = [] then none
         else some ⟨"onBeforeApplicationShutdown",
            (Container.getInstancesRec fuel w c.rootCid).reverse.filterMap
              (fun i => hookErr (hooks i .beforeShutdown))⟩)) ∧
    ((InjectorContext.onApplicationShutdown fuel hooks c w).called =
        (Container.getInstancesRec fuel w c.rootCid).reverse.filter
          (fun i => hookPresent (hooks i .destroy)) ++
        (Container.getInstancesRec fuel w c.rootCid).reverse.filter
          (fun i => hookPresent (hooks i .shutdown)) ∧
      (InjectorContext.onApplicationShutdown fuel hooks c w).failure =
        (if (Container.getInstancesRec fuel w c.rootCid).reverse.filterMap
              (fun i => hookErr (hooks i .destroy)) ++
            (Container.getInstancesRec fuel w c.rootCid).reverse.filterMap
              (fun i => hookErr (hooks i .shutdown)) = [] then none
         else some ⟨"shutdown",
            (Container.getInstancesRec fuel w c.rootCid).reverse.filterMap
              (fun i => hookErr (hooks i .destroy)) ++
            (Container.getInstancesRec fuel w c.rootCid).reverse.filterMap
              (fun i => hookErr (hooks i .shutdown))⟩)) := by
  refine ⟨?_, ?_, ?_⟩
  · intro h
    simp [InjectorContext.onApplicationBootstrap, h, sweep_called,
      sweep_errors]
  · intro h
    simp [InjectorContext.onBeforeApplicationShutdown, h, sweep_called,
      sweep_errors]
  · simp [InjectorContext.onApplicationShutdown, sweep_called, sweep_errors]

/-- Witness for C8: five tracked instances, the bootstrap hooks of
instances 2 and 4 throw — all five hooks are still invoked and the phase
raises one aggregate listing exactly the two errors. -/
theorem claim8_witness :
    cEx8.isBootstrapped = false ∧
    ((InjectorContext.onApplicationBootstrap 1 hEx8 cEx8 wEx8).called =
        (Container.getInstancesRec 1 wEx8 cEx8.rootCid).filter
          (fun i => hookPresent (hEx8 i .boot)) ∧
      (InjectorContext.onApplicationBootstrap 1 hEx8 cEx8 wEx8).failure =
        (if (Container.getInstancesRec 1 wEx8 cEx8.rootCid).filterMap
              (fun i => hookErr (hEx8 i .boot)) = [] then none
         else some ⟨"onApplicationBootstrap",
            (Container.getInstancesRec 1 wEx8 cEx8.rootCid).filterMap
              (fun i => hookErr (hEx8 i .boot))⟩)) ∧
    (InjectorContext.onApplicationBootstrap 1 hEx8 cEx8 wEx8).called =
      [1, 2, 3, 4, 5] ∧
    (InjectorContext.onApplicationBootstrap 1 hEx8 cEx8 wEx8).failure =
      some ⟨"onApplicationBootstrap", [21, 22]⟩ :=
  ⟨rfl, (claim8_lifecycle_aggregates_failures 1 hEx8 cEx8 wEx8).1 rfl,
   by decide, by decide⟩

-- Claim C1: resolution order of Container.resolve.

theorem scanChildren_no_global (n : Nat) (w : World) (cid t : Nat)
    (h : (getC w cid).globalC = none ∨
      ∃ g, (getC w cid).globalC = some g ∧
        (g = cid ∨ lookupA (getC w g).providers t = none)) :
    Container.scanChildren (n + 1) w cid [] t = .err (.notFound t) w := by
  rcases h with h | ⟨g, hg, hcase⟩
  · simp [Container.scanChildren, h]
  · simp only [Container.scanChildren, hg]
    rw [if_neg]
    rintro ⟨h1, h2⟩
    rcases hcase with hc | hc
    · exact h1 hc
    · rw [hc] at h2
      simp at h2

theorem scanChildren_skip_all (t : Nat) :
    ∀ (kids : List Nat) (n : Nat) (w : World) (cid : Nat),
    (∀ k ∈ kids, t ∉ (getC w k).exports) →
    Container.scanChildren (n + kids.length + 1) w cid kids t =
      Container.scanChildren (n + 1) w cid [] t := by
  intro kids
  induction kids with
  | nil => intro n w cid _; rfl
  | cons k ks ih =>
    intro n w cid h
    have hk : t ∉ (getC w k).exports := h k (by simp)
    have hl : n + (k :: ks).length + 1 = (n + ks.length + 1) + 1 := by
      simp [List.length_cons]
      omega
    rw [hl]
    show Container.scanChildren ((n + ks.length + 1) + 1) w cid (k :: ks) t =
      _
    simp only [Container.scanChildren]
    rw [if_neg hk]
    exact ih n w cid (fun k₂ hk₂ => h k₂ (by simp [hk₂]))

/-- C1: `Container.resolve` follows the documented order with first match
winning — an own provider is resolved in this container according to its
mode; otherwise the children are scanned in registration order, trying
only children that export the token, continuing past a child that fails
with token-not-found and propagating any other child failure; otherwise a
configured global container distinct from this one and holding the token
is delegated to; otherwise resolution fails with token-not-found. In
particular a token whose only provider sits unexported in a child is not
resolvable from the parent. (All parts assume the token is not already
in-flight, the case ruled by circular-dependency detection.) -/
theorem claim1_resolution_order (n : Nat) (w : World) (cid t : Nat) :
    (∀ p, t ∉ (getC w cid).resolving →
      lookupA (getC w cid).providers t = some p →
      Container.resolve (n+1) w cid t =
        (match p.mode with
         | .singleton => Container.resolveSingleton n w cid t p
         | .transient => Container.resolveTransient n w cid p
         | .request => Container.resolveRequest n w cid t p
         | .other => Container.resolveTransient n w cid p)) ∧
    (t ∉ (getC w cid).resolving →
      lookupA (getC w cid).providers t = none →
      Container.resolve (n+1) w cid t =
        Container.scanChildren n w cid (getC w cid).children t) ∧
    (∀ k ks v w₂, t ∈ (getC w k).exports →
      Container.resolve n w k t = .ok v w₂ →
      Container.scanChildren (n+1) w cid (k :: ks) t = .ok v w₂) ∧
    (∀ k ks u w₂, t ∈ (getC w k).exports →
      Container.resolve n w k t = .err (.notFound u) w₂ →
      Container.scanChildren (n+1) w cid (k :: ks) t =
        Container.scanChildren n w₂ cid ks t) ∧
    (∀ k ks e w₂, t ∈ (getC w k).exports →
      Container.resolve n w k t = .err e w₂ → (∀ u, e ≠ .notFound u) →
      Container.scanChildren (n+1) w cid (k :: ks) t = .err e w₂) ∧
    (∀ k ks, t ∉ (getC w k).exports →
      Container.scanChildren (n+1) w cid (k :: ks) t =
        Container.scanChildren n w cid ks t) ∧
    (∀ g, (getC w cid).globalC = some g → g ≠ cid →
      (lookupA (getC w g).providers t).isSome →
      Container.scanChildren (n+1) w cid [] t =
        Container.resolve n w g t) ∧
    (((getC w cid).globalC = none ∨
      ∃ g, (getC w cid).globalC = some g ∧
        (g = cid ∨ lookupA (getC w g).providers t = none)) →
      Container.scanChildren (n+1) w cid [] t = .err (.notFound t) w) ∧
    (t ∉ (getC w cid).resolving →
      lookupA (getC w cid).providers t = none →
      (∀ k ∈ (getC w cid).children, t ∉ (getC w k).exports) →
      ((getC w cid).globalC = none ∨
       ∃ g, (getC w cid).globalC = some g ∧
         (g = cid ∨ lookupA (getC w g).providers t = none)) →
      Container.resolve (n + (getC w cid).children.length + 2) w cid t =
        .err (.notFound t) w) := by
  refine ⟨?_, ?_, ?_, ?_, ?_, ?_, ?_, ?_, ?_⟩
  · intro p hres hp
    simp [Container.resolve, hres, hp]
  · intro hres hp
    simp [Container.resolve, hres, hp]
  · intro k ks v w₂ hex hok
    simp [Container.scanChildren, hex, hok]
  · intro k ks u w₂ hex herr
    simp [Container.scanChildren, hex, herr]
  · intro k ks e w₂ hex herr hne
    cases e with
    | notFound u => exact absurd rfl (hne u)
    | circular ch => simp [Container.scanChildren, hex, herr]
    | reqContext u => simp [Container.scanChildren, hex, herr]
    | fuelOut => simp [Container.scanChildren, hex, herr]
  · intro k ks hex
    simp [Container.scanChildren, hex]
  · intro g hg hne hsome
    simp [Container.scanChildren, hg, hne, hsome]
  · exact scanChildren_no_global n w cid t
  · intro hres hp hkids hglob
    have h1 : Container.resolve (n + (getC w cid).children.length + 2) w
        cid t =
        Container.scanChildren (n + (getC w cid).children.length + 1) w cid
          (getC w cid).children t := by
      show Container.resolve ((n + (getC w cid).children.length + 1) + 1) w
        cid t = _
      simp [Container.resolve, hres, hp]
    rw [h1, scanChildren_skip_all t _ n w cid hkids,
      scanChildren_no_global n w cid t hglob]

/-- Witness for C1: token 7 is registered but unexported in child 1 of
`wEx1`; the parent cannot resolve it. -/
theorem claim1_witness :
    ((7 : Nat) ∉ (getC wEx1 0).resolving ∧
     lookupA (getC wEx1 0).providers 7 = none ∧
     (∀ k ∈ (getC wEx1 0).children, (7 : Nat) ∉ (getC wEx1 k).exports) ∧
     (getC wEx1 0).globalC = none ∧
     (lookupA (getC wEx1 1).providers 7).isSome) ∧
    Container.resolve (0 + (getC wEx1 0).children.length + 2) wEx1 0 7 =
      .err (.notFound 7) wEx1 :=
  ⟨⟨by decide, by decide, by decide, by decide, by decide⟩,
   (claim1_resolution_order 0 wEx1 0 7).2.2.2.2.2.2.2.2
     (by decide) (by decide) (by decide) (Or.inl (by decide))⟩

-- Claim C3: circular-dependency detection.

/-- C3 (amended): resolving a token already in the container's in-flight
set fails with a circular-dependency error whose chain is the in-flight
chain plus the repeated token; since the in-flight chain is
duplicate-free, that chain contains the re-entered token exactly twice.
A provider depending directly on itself fails this way with its own token
exactly twice in the chain (`wC3a`), as does a plain transitive cycle
(`wC3b`); when another cycle is hit first the repeated token is the
re-entered one, not necessarily the originally resolved token. -/
theorem claim3_circular_chain (n : Nat) (w : World) (cid t : Nat) :
    (t ∈ (getC w cid).resolving →
      Container.resolve (n+1) w cid t =
        .err (.circular ((getC w cid).resolving ++ [t])) w) ∧
    (t ∈ (getC w cid).resolving → (getC w cid).resolving.Nodup →
      ((getC w cid).resolving ++ [t]).count t = 2) ∧
    ((Container.resolve 9 wC3a 0 1).errOf = some (.circular [1, 1]) ∧
      [1, 1].count 1 = 2) ∧
    ((Container.resolve 9 wC3b 0 1).errOf = some (.circular [1, 2, 1]) ∧
      [1, 2, 1].count 1 = 2) := by
  refine ⟨?_, ?_, ⟨by decide, by decide⟩, ⟨by decide, by decide⟩⟩
  · intro h
    simp [Container.resolve, h]
  · intro hmem hnd
    simp [List.count_append, List.count_eq_one_of_mem hnd hmem]

/-- Witness for C3: re-entering token 5 while it is in-flight in a
container reports the full chain plus the repeated token, which then
occurs exactly twice. -/
theorem claim3_witness :
    ((5 : Nat) ∈ (getC { conts := [(0, { resolving := [4, 5] })] } 0).resolving ∧
      (getC { conts := [(0, { resolving := [4, 5] })] } 0).resolving.Nodup) ∧
    Container.resolve 3 { conts := [(0, { resolving := [4, 5] })] } 0 5 =
      .err (.circular ((getC { conts := [(0, { resolving := [4, 5] })] }
        0).resolving ++ [5])) { conts := [(0, { resolving := [4, 5] })] } ∧
    ((getC { conts := [(0, { resolving := [4, 5] })] } 0).resolving ++
      [5]).count 5 = 2 :=
  ⟨⟨by decide, by decide⟩,
   (claim3_circular_chain 2 { conts := [(0, { resolving := [4, 5] })] } 0
     5).1 (by decide),
   (claim3_circular_chain 2 { conts := [(0, { resolving := [4, 5] })] } 0
     5).2.1 (by decide) (by decide)⟩

/-- Counterexample for C3 as stated: in `wC3c` token 1 depends
transitively on itself (1 → 2 → 1), resolution does fail with a circular
dependency, but the reported chain `[1, 2, 2]` contains token 1 only
once — the token occurring twice is the first re-entered one (2). -/
theorem claim3_counterexample :
    (Container.resolve 9 wC3c 0 1).errOf = some (.circular [1, 2, 2]) ∧
    ¬ [1, 2, 2].count 1 = 2 := by
  refine ⟨by decide, by decide⟩

-- The resolver frame invariant.

theorem WInv_refl (w : World) : WInv w w :=
  ⟨le_refl _, fun _ => ⟨rfl, rfl, rfl, rfl, rfl⟩⟩

theorem WInv_trans {w₁ w₂ w₃ : World} (h1 : WInv w₁ w₂)
    (h2 : WInv w₂ w₃) : WInv w₁ w₃ := by
  refine ⟨le_trans h1.1 h2.1, fun c => ?_⟩
  obtain ⟨a1, a2, a3, a4, a5⟩ := h1.2 c
  obtain ⟨b1, b2, b3, b4, b5⟩ := h2.2 c
  exact ⟨b1.trans a1, b2.trans a2, b3.trans a3, b4.trans a4, b5.trans a5⟩

theorem WInv_updC (w : World) (cid : Nat) (f : ContState → ContState)
    (h1 : ∀ s, (f s).providers = s.providers)
    (h2 : ∀ s, (f s).tagToTokens = s.tagToTokens)
    (h3 : ∀ s, (f s).children = s.children)
    (h4 : ∀ s, (f s).exports = s.exports)
    (h5 : ∀ s, (f s).globalC = s.globalC) :
    WInv w (updC w cid f) := by
  refine ⟨le_refl _, fun c => ?_⟩
  by_cases h : c = cid
  · subst h
    rw [getC_updC_self]
    exact ⟨h1 _, h2 _, h3 _, h4 _, h5 _⟩
  · rw [getC_updC_ne _ _ _ h]
    exact ⟨rfl, rfl, rfl, rfl, rfl⟩

theorem WInv_addResolving (w : World) (cid t : Nat) :
    WInv w (addResolving w cid t) := by
  apply WInv_updC <;> intro s <;> by_cases h : t ∈ s.resolving <;> simp [h]

theorem WInv_eraseResolving (w : World) (cid t : Nat) :
    WInv w (eraseResolving w cid t) := by
  apply WInv_updC <;> intro s <;> rfl

theorem WInv_setReq (w : World) (x : Option ReqCtx) :
    WInv w { w with reqCtx := x } :=
  ⟨le_refl _, fun _ => ⟨rfl, rfl, rfl, rfl, rfl⟩⟩

theorem WInv_freshBump (w : World) :
    WInv w { w with fresh := w.fresh + 1 } :=
  ⟨Nat.le_succ _, fun _ => ⟨rfl, rfl, rfl, rfl, rfl⟩⟩

/-- Resolution never registers or removes providers, never edits the tag
index, the child lists, the export sets or the global references, and
only ever increases the fresh allocation counter — for all eight mutually
recursive functions of the resolver. -/
theorem resolve_winv : ∀ n : Nat,
    (∀ w cid t, WInv w (Container.resolve n w cid t).world) ∧
    (∀ w cid kids t,
      WInv w (Container.scanChildren n w cid kids t).world) ∧
    (∀ w cid t p,
      WInv w (Container.resolveSingleton n w cid t p).world) ∧
    (∀ w cid p, WInv w (Container.resolveTransient n w cid p).world) ∧
    (∀ w cid t p, WInv w (Container.resolveRequest n w cid t p).world) ∧
    (∀ w cid b, WInv w (Container.runBody n w cid b).world) ∧
    (∀ w cid l, WInv w (Container.factoryArgs n w cid l).world) ∧
    (∀ w cid ds,
      WInv w (Container.injectDependencies n w cid ds).world) := by
  intro n
  induction n with
  | zero =>
    refine ⟨?_, ?_, ?_, ?_, ?_, ?_, ?_, ?_⟩ <;> intros <;> exact WInv_refl _
  | succ n ih =>
    obtain ⟨ihr, ihs, ihsg, ihtr, ihrq, ihb, ihf, ihd⟩ := ih
    have hok : ∀ (w w' : World) (v : Nat) (r : RRes), r = .ok v w' →
        WInv w r.world → WInv w w' := by
      intro w w' v r hr h
      rw [hr] at h
      exact h
    have herr : ∀ (w w' : World) (e : RErr) (r : RRes), r = .err e w' →
        WInv w r.world → WInv w w' := by
      intro w w' e r hr h
      rw [hr] at h
      exact h
    refine ⟨?_, ?_, ?_, ?_, ?_, ?_, ?_, ?_⟩
    · intro w cid t
      simp only [Container.resolve]
      split
      · exact WInv_refl w
      · split
        · split
          · exact ihsg w cid t _
          · exact ihtr w cid _
          · exact ihrq w cid t _
          · exact ihtr w cid _
        · exact ihs w cid _ t
    · intro w cid kids t
      cases kids with
      | nil =>
        simp only [Container.scanChildren]
        split
        · split
          · exact ihr w _ t
          · exact WInv_refl w
        · exact WInv_refl w
      | cons k ks =>
        simp only [Container.scanChildren]
        split
        · split
          · next v w₂ heq =>
            exact hok w w₂ v _ heq (ihr w k t)
          · next u w₂ heq =>
            exact WInv_trans (herr w w₂ _ _ heq (ihr w k t))
              (ihs w₂ cid ks t)
          · next e w₂ _ heq =>
            exact herr w w₂ e _ heq (ihr w k t)
        · exact ihs w cid ks t
    · intro w cid t p
      simp only [Container.resolveSingleton]
      split
      · exact WInv_refl w
      · split
        · next v w₂ heq =>
          refine WInv_trans (WInv_addResolving w cid t)
            (WInv_trans (hok _ w₂ v _ heq (ihb _ cid p.body)) ?_)
          refine WInv_trans ?_ (WInv_eraseResolving _ cid t)
          apply WInv_updC <;> intro s <;> rfl
        · next e w₂ heq =>
          exact WInv_trans (WInv_addResolving w cid t)
            (WInv_trans (herr _ w₂ e _ heq (ihb _ cid p.body))
              (WInv_eraseResolving w₂ cid t))
    · intro w cid p
      simp only [Container.resolveTransient]
      split
      · next v w₂ heq =>
        refine WInv_trans (WInv_addResolving w cid p.token)
          (WInv_trans (hok _ w₂ v _ heq (ihb _ cid p.body)) ?_)
        refine WInv_trans ?_ (WInv_eraseResolving _ cid p.token)
        apply WInv_updC <;> intro s <;> rfl
      · next e w₂ heq =>
        exact WInv_trans (WInv_addResolving w cid p.token)
          (WInv_trans (herr _ w₂ e _ heq (ihb _ cid p.body))
            (WInv_eraseResolving w₂ cid p.token))
    · intro w cid t p
      simp only [Container.resolveRequest]
      split
      · exact WInv_refl w
      · split
        · exact WInv_refl w
        · split
          · next v w₂ heq =>
            exact WInv_trans (WInv_addResolving w cid t)
              (WInv_trans (hok _ w₂ v _ heq (ihb _ cid p.body))
                (WInv_trans (WInv_setReq w₂ _)
                  (WInv_eraseResolving _ cid t)))
          · next e w₂ heq =>
            exact WInv_trans (WInv_addResolving w cid t)
              (WInv_trans (herr _ w₂ e _ heq (ihb _ cid p.body))
                (WInv_eraseResolving w₂ cid t))
    · intro w cid b
      rcases b with v | deps | ⟨inject, fn⟩ | tgt
      · exact WInv_refl w
      · simp only [Container.runBody]
        split
        · next w₂ heq =>
          have h2 := ihd { w with fresh := w.fresh + 1 } cid deps
          rw [heq] at h2
          exact WInv_trans (WInv_freshBump w) h2
        · next e w₂ heq =>
          have h2 := ihd { w with fresh := w.fresh + 1 } cid deps
          rw [heq] at h2
          exact WInv_trans (WInv_freshBump w) h2
      · simp only [Container.runBody]
        split
        · next e w₂ heq =>
          have h2 := ihf w cid inject
          rw [heq] at h2
          exact h2
        · next vs w₂ heq =>
          have h1 : WInv w w₂ := by
            have h2 := ihf w cid inject
            rw [heq] at h2
            exact h2
          cases fn with
          | constFn v => exact h1
          | freshFn => exact WInv_trans h1 (WInv_freshBump w₂)
      · exact ihr w cid tgt
    · intro w cid l
      cases l with
      | nil => exact WInv_refl w
      | cons t ts =>
        simp only [Container.factoryArgs]
        split
        · next v w₂ heq =>
          have h1 : WInv w w₂ := hok w w₂ v _ heq (ihr w cid t)
          split
          · next vs w₃ heq₂ =>
            have h2 := ihf w₂ cid ts
            rw [heq₂] at h2
            exact WInv_trans h1 h2
          · next e w₃ heq₂ =>
            have h2 := ihf w₂ cid ts
            rw [heq₂] at h2
            exact WInv_trans h1 h2
        · next e w₂ heq =>
          exact herr w w₂ e _ heq (ihr w cid t)
    · intro w cid ds
      cases ds with
      | nil => exact WInv_refl w
      | cons d rest =>
        simp only [Container.injectDependencies]
        split
        · next v w₂ heq =>
          exact WInv_trans (hok w w₂ v _ heq (ihr w cid d.token))
            (ihd w₂ cid rest)
        · next e w₂ heq =>
          have h1 : WInv w w₂ := herr w w₂ e _ heq (ihr w cid d.token)
          split
          · exact WInv_trans h1 (ihd w₂ cid rest)
          · exact h1

-- Singleton-cache lemmas.

theorem singleton_commit_shape (n : Nat) (w : World) (cid t : Nat)
    (p : NProvider) (hc : lookupA (getC w cid).singletons t = none)
    {v : Nat} {w₂ : World}
    (hb : Container.runBody n (addResolving w cid t) cid p.body =
      .ok v w₂) :
    Container.resolveSingleton (n+1) w cid t p =
      .ok v (singletonCommit w₂ cid t v) := by
  simp [Container.resolveSingleton, hc, hb, singletonCommit]

theorem singleton_cache_set {n : Nat} {w : World} {cid t : Nat}
    {p : NProvider} (hp : lookupA (getC w cid).providers t = some p)
    (hm : p.mode = .singleton) {v : Nat} {w₂ : World}
    (hres : Container.resolve (n+1) w cid t = .ok v w₂) :
    lookupA (getC w₂ cid).singletons t = some v := by
  by_cases hfl : t ∈ (getC w cid).resolving
  · simp [Container.resolve, hfl] at hres
  · have h1 : Container.resolve (n+1) w cid t =
        Container.resolveSingleton n w cid t p := by
      simp [Container.resolve, hfl, hp, hm]
    rw [h1] at hres
    cases n with
    | zero => simp [Container.resolveSingleton] at hres
    | succ m =>
      cases hc : lookupA (getC w cid).singletons t with
      | some v0 =>
        have h2 : Container.resolveSingleton (m+1) w cid t p = .ok v0 w := by
          simp [Container.resolveSingleton, hc]
        rw [h2] at hres
        simp only [RRes.ok.injEq] at hres
        obtain ⟨hv, hw⟩ := hres
        rw [← hw, hc, hv]
      | none =>
        cases hb : Container.runBody m (addResolving w cid t) cid p.body
          with
        | ok vb wb =>
          rw [singleton_commit_shape m w cid t p hc hb] at hres
          simp only [RRes.ok.injEq] at hres
          obtain ⟨hv, hw⟩ := hres
          rw [← hw]
          simp [singletonCommit, eraseResolving, getC_updC_self,
            lookupA_insert_self, hv]
        | err e wb =>
          have h2 : Container.resolveSingleton (m+1) w cid t p =
              .err e (eraseResolving wb cid t) := by
            simp [Container.resolveSingleton, hc, hb]
          rw [h2] at hres
          simp at hres
      
theorem singleton_cache_hit {n : Nat} {w : World} {cid t : Nat}
    {p : NProvider} {v : Nat}
    (hp : lookupA (getC w cid).providers t = some p)
    (hm : p.mode = .singleton) (hfl : t ∉ (getC w cid).resolving)
    (hc : lookupA (getC w cid).singletons t = some v) :
    Container.resolve (n+2) w cid t = .ok v w := by
  have h1 : Container.resolve (n+2) w cid t =
      Container.resolveSingleton (n+1) w cid t p := by
    simp [Container.resolve, hfl, hp, hm]
  rw [h1]
  simp [Container.resolveSingleton, hc]

-- Transient resolution allocates a fresh instance for class providers.

theorem transient_class_fresh {n : Nat} {w : World} {cid t : Nat}
    {p : NProvider} {deps : List Dep} {v : Nat} {w₂ : World}
    (hp : lookupA (getC w cid).providers t = some p)
    (hm : p.mode = .transient) (hb : p.body = .classBody deps)
    (hfl : t ∉ (getC w cid).resolving)
    (hres : Container.resolve (n+1) w cid t = .ok v w₂) :
    v = w.fresh ∧ w.fresh < w₂.fresh := by
  have h1 : Container.resolve (n+1) w cid t =
      Container.resolveTransient n w cid p := by
    simp [Container.resolve, hfl, hp, hm]
  rw [h1] at hres
  cases n with
  | zero => simp [Container.resolveTransient] at hres
  | succ m =>
    cases hrb : Container.runBody m (addResolving w cid p.token) cid p.body
      with
    | ok vb wb =>
      have h2 : Container.resolveTransient (m+1) w cid p =
          .ok vb (eraseResolving (updC wb cid (fun s =>
            { s with instances := s.instances ++ [vb] })) cid p.token) := by
        simp [Container.resolveTransient, hrb]
      rw [h2] at hres
      simp only [RRes.ok.injEq] at hres
      obtain ⟨hv, hw⟩ := hres
      rw [hb] at hrb
      cases m with
      | zero => simp [Container.runBody] at hrb
      | succ q =>
        have hfr : (addResolving w cid p.token).fresh = w.fresh := rfl
        cases hid : Container.injectDependencies q
            { addResolving w cid p.token with
              fresh := (addResolving w cid p.token).fresh + 1 } cid deps
          with
        | ok wq =>
          have h3 : Container.runBody (q+1) (addResolving w cid p.token)
              cid (.classBody deps) =
              .ok (addResolving w cid p.token).fresh wq := by
            simp [Container.runBody, hid]
          rw [h3] at hrb
          simp only [RRes.ok.injEq] at hrb
          obtain ⟨hv2, hw2⟩ := hrb
          have hmono := ((resolve_winv q).2.2.2.2.2.2.2
            { addResolving w cid p.token with
              fresh := (addResolving w cid p.token).fresh + 1 } cid
            deps).1
          rw [hid] at hmono
          constructor
          · rw [← hv, ← hv2, hfr]
          · have hle : w.fresh + 1 ≤ wq.fresh := by
              simpa [hfr] using hmono
            have hwb : wb.fresh = wq.fresh := by rw [hw2]
            have hw₂ : w₂.fresh = wb.fresh := by
              rw [← hw]
              rfl
            omega
        | err e wq =>
          have h3 : Container.runBody (q+1) (addResolving w cid p.token)
              cid (.classBody deps) = .err e wq := by
            simp [Container.runBody, hid]
          rw [h3] at hrb
          simp at hrb
    | err e wb =>
      have h2 : Container.resolveTransient (m+1) w cid p =
          .err e (eraseResolving wb cid p.token) := by
        simp [Container.resolveTransient, hrb]
      rw [h2] at hres
      simp at hres

-- Claim C4: singleton vs transient lifetimes.

/-- C4 (amended): a successful singleton resolution caches its instance,
and a second resolution of the same token returns the identical instance
with the world unchanged (the cached value is returned without invoking
the provider again). Transient resolution never caches and re-invokes the
provider's resolve function each time, so a transient class provider
yields a distinct (freshly allocated) instance on every resolution; a
transient factory returning a pre-existing value, however, can yield the
identical value twice (see the counterexample), so distinctness holds for
providers that allocate, not for every transient provider. -/
theorem claim4_singleton_cached_transient_fresh :
    (∀ n m w cid t p v w₂,
      lookupA (getC w cid).providers t = some p → p.mode = .singleton →
      t ∉ (getC w cid).resolving →
      Container.resolve (n+1) w cid t = .ok v w₂ →
      t ∉ (getC w₂ cid).resolving →
      Container.resolve (m+2) w₂ cid t = .ok v w₂) ∧
    (∀ n m w cid t p deps v₁ w₂ v₂ w₃,
      lookupA (getC w cid).providers t = some p → p.mode = .transient →
      p.body = .classBody deps →
      t ∉ (getC w cid).resolving →
      Container.resolve (n+1) w cid t = .ok v₁ w₂ →
      t ∉ (getC w₂ cid).resolving →
      Container.resolve (m+1) w₂ cid t = .ok v₂ w₃ →
      v₁ ≠ v₂) := by
  constructor
  · intro n m w cid t p v w₂ hp hm hfl hres hfl₂
    have hpres : (getC w₂ cid).providers = (getC w cid).providers := by
      have h1 := (resolve_winv (n+1)).1 w cid t
      rw [hres] at h1
      exact (h1.2 cid).1
    have hp₂ : lookupA (getC w₂ cid).providers t = some p := by
      rw [hpres]
      exact hp
    exact singleton_cache_hit hp₂ hm hfl₂
      (singleton_cache_set hp hm hres)
  · intro n m w cid t p deps v₁ w₂ v₂ w₃ hp hm hb hfl hres₁ hfl₂ hres₂
    have hpres : (getC w₂ cid).providers = (getC w cid).providers := by
      have h1 := (resolve_winv (n+1)).1 w cid t
      rw [hres₁] at h1
      exact (h1.2 cid).1
    have hp₂ : lookupA (getC w₂ cid).providers t = some p := by
      rw [hpres]
      exact hp
    obtain ⟨hv₁, hlt⟩ := transient_class_fresh hp hm hb hfl hres₁
    obtain ⟨hv₂, _⟩ := transient_class_fresh hp₂ hm hb hfl₂ hres₂
    omega

/-- Witness for C4: on `wVal` the singleton token 5 resolves to 42 and a
second resolution returns the cached 42 with the world untouched; on
`wC4b` the transient class token 7 yields two distinct instances. -/
theorem claim4_witness :
    ((lookupA (getC wVal 0).providers 5 =
        some (normalizeValue 5 42) ∧
      (normalizeValue 5 42).mode = .singleton ∧
      (5 : Nat) ∉ (getC wVal 0).resolving ∧
      Container.resolve 9 wVal 0 5 =
        .ok 42 ((Container.resolve 9 wVal 0 5).world) ∧
      (5 : Nat) ∉ (getC ((Container.resolve 9 wVal 0 5).world) 0).resolving) ∧
     Container.resolve 2 ((Container.resolve 9 wVal 0 5).world) 0 5 =
       .ok 42 ((Container.resolve 9 wVal 0 5).world)) ∧
    ((Container.resolve 9 wC4b 0 7 =
        .ok 0 ((Container.resolve 9 wC4b 0 7).world) ∧
      Container.resolve 9 ((Container.resolve 9 wC4b 0 7).world) 0 7 =
        .ok 1 ((Container.resolve 9 ((Container.resolve 9 wC4b 0 7).world)
          0 7).world)) ∧
     (0 : Nat) ≠ 1) :=
  ⟨⟨⟨by decide, by decide, by decide, by decide, by decide⟩,
    claim4_singleton_cached_transient_fresh.1 8 0 wVal 0 5
      (normalizeValue 5 42) 42 ((Container.resolve 9 wVal 0 5).world)
      (by decide) (by decide) (by decide) (by decide) (by decide)⟩,
   ⟨⟨by decide, by decide⟩,
    claim4_singleton_cached_transient_fresh.2 8 8 wC4b 0 7
      (normalizeClass 7 (some .transient) []) [] 0
      ((Container.resolve 9 wC4b 0 7).world) 1
      ((Container.resolve 9 ((Container.resolve 9 wC4b 0 7).world) 0
        7).world)
      (by decide) (by decide) (by decide) (by decide) (by decide)
      (by decide) (by decide)⟩⟩

/-- Counterexample for C4 as stated: token 7 in `wC4` is a registered
transient provider (an explicitly transient factory returning a fixed
pre-existing value), yet two consecutive resolutions return the identical
instance 42, not two distinct instances. -/
theorem claim4_counterexample :
    (lookupA (getC wC4 0).providers 7).map NProvider.mode =
      some .transient ∧
    (Container.resolve 9 wC4 0 7).value = some 42 ∧
    (Container.resolve 9 ((Container.resolve 9 wC4 0 7).world) 0 7).value =
      some 42 :=
  ⟨by decide, by decide, by decide⟩

-- Claim C5: alias (useExisting) resolution.

/-- C5 (amended): an alias provider is normalized with mode fixed to
singleton and a body delegating to its target; resolving an uncached
alias token delegates to the target and caches the result, and — when the
target provider is singleton-mode — resolving the target directly
afterwards returns the identical instance. For a non-singleton target the
alias caches a snapshot while the target keeps producing fresh instances,
so the same-instance property holds for singleton targets, not for every
lifetime mode (see the counterexample). -/
theorem claim5_alias_same_instance :
    (∀ a tgt, (normalizeExisting a tgt).mode = .singleton ∧
      (normalizeExisting a tgt).token = a ∧
      (normalizeExisting a tgt).body = .alias tgt) ∧
    (∀ n w cid a tgt v w₂,
      lookupA (getC w cid).providers a = some (normalizeExisting a tgt) →
      a ∉ (getC w cid).resolving →
      lookupA (getC w cid).singletons a = none →
      Container.resolve n (addResolving w cid a) cid tgt = .ok v w₂ →
      Container.resolve (n+3) w cid a =
        .ok v (singletonCommit w₂ cid a v)) ∧
    (∀ n m w cid a tgt v w₂ q,
      lookupA (getC w cid).providers a = some (normalizeExisting a tgt) →
      a ∉ (getC w cid).resolving →
      lookupA (getC w cid).singletons a = none →
      Container.resolve n (addResolving w cid a) cid tgt = .ok v w₂ →
      lookupA (getC w cid).providers tgt = some q → q.mode = .singleton →
      tgt ≠ a →
      tgt ∉ (getC (singletonCommit w₂ cid a v) cid).resolving →
      Container.resolve (m+2) (singletonCommit w₂ cid a v) cid tgt =
        .ok v (singletonCommit w₂ cid a v)) := by
  refine ⟨fun a tgt => ⟨rfl, rfl, rfl⟩, ?_, ?_⟩
  · intro n w cid a tgt v w₂ hp hfl hc hres
    have h1 : Container.resolve (n+3) w cid a =
        Container.resolveSingleton (n+2) w cid a
          (normalizeExisting a tgt) := by
      simp [Container.resolve, hfl, hp, normalizeExisting]
    have hb : Container.runBody (n+1) (addResolving w cid a) cid
        (normalizeExisting a tgt).body = .ok v w₂ := by
      show Container.runBody (n+1) (addResolving w cid a) cid
        (.alias tgt) = _
      simp only [Container.runBody]
      exact hres
    rw [h1]
    exact singleton_commit_shape (n+1) w cid a _ hc hb
  · intro n m w cid a tgt v w₂ q hp hfl hc hres hq hqm hne hfl₂
    cases n with
    | zero => simp [Container.resolve] at hres
    | succ n' =>
      have hq' : lookupA (getC (addResolving w cid a) cid).providers tgt =
          some q := by
        rw [((WInv_addResolving w cid a).2 cid).1]
        exact hq
      have hcache := singleton_cache_set hq' hqm hres
      have hcache₂ : lookupA (getC (singletonCommit w₂ cid a v)
          cid).singletons tgt = some v := by
        simp only [singletonCommit, eraseResolving, getC_updC_self]
        rw [lookupA_insert_ne _ _ (Ne.symm hne)]
        exact hcache
      have hq₂ : lookupA (getC (singletonCommit w₂ cid a v)
          cid).providers tgt = some q := by
        have h1 := (resolve_winv (n'+1)).1 (addResolving w cid a) cid tgt
        rw [hres] at h1
        simp only [RRes.world] at h1
        simp only [singletonCommit, eraseResolving, getC_updC_self]
        rw [(h1.2 cid).1, ((WInv_addResolving w cid a).2 cid).1]
        exact hq
      exact singleton_cache_hit hq₂ hqm hfl₂ hcache₂

/-- Witness for C5: in `wC5` the alias 4 → 3 over a singleton class
target resolves to instance 0, and resolving the target 3 directly in
the resulting state returns the same instance 0. -/
theorem claim5_witness :
    ((lookupA (getC wC5 0).providers 4 = some (normalizeExisting 4 3) ∧
      (4 : Nat) ∉ (getC wC5 0).resolving ∧
      lookupA (getC wC5 0).singletons 4 = none ∧
      Container.resolve 6 (addResolving wC5 0 4) 0 3 =
        .ok 0 ((Container.resolve 6 (addResolving wC5 0 4) 0 3).world) ∧
      lookupA (getC wC5 0).providers 3 = some (normalizeClass 3 none []) ∧
      (normalizeClass 3 none []).mode = .singleton ∧
      (3 : Nat) ≠ 4 ∧
      (3 : Nat) ∉ (getC (singletonCommit
        ((Container.resolve 6 (addResolving wC5 0 4) 0 3).world) 0 4 0)
        0).resolving) ∧
     Container.resolve 9 wC5 0 4 = .ok 0 (singletonCommit
       ((Container.resolve 6 (addResolving wC5 0 4) 0 3).world) 0 4 0)) ∧
    Container.resolve 2 (singletonCommit
        ((Container.resolve 6 (addResolving wC5 0 4) 0 3).world) 0 4 0) 0
        3 =
      .ok 0 (singletonCommit
        ((Container.resolve 6 (addResolving wC5 0 4) 0 3).world) 0 4 0) :=
  ⟨⟨⟨by decide, by decide, by decide, by decide, by decide, by decide,
     by decide, by decide⟩,
    claim5_alias_same_instance.2.1 6 wC5 0 4 3 0
      ((Container.resolve 6 (addResolving wC5 0 4) 0 3).world)
      (by decide) (by decide) (by decide) (by decide)⟩,
   claim5_alias_same_instance.2.2 6 0 wC5 0 4 3 0
     ((Container.resolve 6 (addResolving wC5 0 4) 0 3).world)
     (normalizeClass 3 none [])
     (by decide) (by decide) (by decide) (by decide) (by decide)
     (by decide) (by decide) (by decide)⟩

/-- Counterexample for C5 as stated: in `wC5t` the alias 4 targets the
transient class provider 3; the alias resolves to instance 0 (and caches
it), while resolving the target directly afterwards yields the distinct
fresh instance 1 — the same-instance property fails for a transient
target, so it does not hold for every lifetime mode. -/
theorem claim5_counterexample :
    lookupA (getC wC5t 0).providers 4 = some (normalizeExisting 4 3) ∧
    (lookupA (getC wC5t 0).providers 3).map NProvider.mode =
      some .transient ∧
    (Container.resolve 9 wC5t 0 4).value = some 0 ∧
    (Container.resolve 9 ((Container.resolve 9 wC5t 0 4).world) 0
      3).value = some 1 ∧
    some (0 : Nat) ≠ some 1 :=
  ⟨by decide, by decide, by decide, by decide, by decide⟩

-- Claim C7: request-scoped resolution.

/-- C7 (amended): a request-scoped token resolved with no active request
context fails with the missing-request-context error; with an active
scope, a scope-cached instance is returned as-is (same instance within
one scope, world unchanged), and a cache miss runs the provider body,
stores the instance in the scope cache only and leaves the container's
tracked-instances list exactly as the body left it (the request wrapper
appends nothing). Scopes resolve independently: a request-scoped class
provider allocates a distinct instance per scope (`wC7`), though a
request-scoped factory returning a pre-existing value yields the
identical value in different scopes (see the counterexample), so
cross-scope distinctness holds for allocating providers, not universally. -/
theorem claim7_request_scope_lifetime :
    (∀ n w cid t p,
      lookupA (getC w cid).providers t = some p → p.mode = .request →
      t ∉ (getC w cid).resolving → w.reqCtx = none →
      Container.resolve (n+2) w cid t = .err (.reqContext t) w) ∧
    (∀ n w cid t p ctx v,
      lookupA (getC w cid).providers t = some p → p.mode = .request →
      t ∉ (getC w cid).resolving → w.reqCtx = some ctx →
      lookupA ctx.instances t = some v →
      Container.resolve (n+2) w cid t = .ok v w) ∧
    (∀ n w cid t p ctx v w₂,
      lookupA (getC w cid).providers t = some p → p.mode = .request →
      t ∉ (getC w cid).resolving → w.reqCtx = some ctx →
      lookupA ctx.instances t = none →
      Container.runBody n (addResolving w cid t) cid p.body = .ok v w₂ →
      Container.resolve (n+2) w cid t =
        .ok v (eraseResolving { w₂ with reqCtx := w₂.reqCtx.map (fun c =>
          { c with instances := insertA c.instances t v }) } cid t) ∧
      (getC (eraseResolving { w₂ with reqCtx := w₂.reqCtx.map (fun c =>
          { c with instances := insertA c.instances t v }) } cid t)
        cid).instances = (getC w₂ cid).instances) ∧
    ((Container.resolve 9 (enterRequestScope wC7 1) 0 5).value =
        some 0 ∧
      (Container.resolve 9
        ((Container.resolve 9 (enterRequestScope wC7 1) 0 5).world) 0
        5).value = some 0 ∧
      (Container.resolve 9 (enterRequestScope (exitRequestScope
        ((Container.resolve 9 (enterRequestScope wC7 1) 0 5).world)) 2) 0
        5).value = some 1 ∧
      some (0 : Nat) ≠ some 1) := by
  refine ⟨?_, ?_, ?_, by decide, by decide, by decide, by decide⟩
  · intro n w cid t p hp hm hfl hctx
    have h1 : Container.resolve (n+2) w cid t =
        Container.resolveRequest (n+1) w cid t p := by
      simp [Container.resolve, hfl, hp, hm]
    rw [h1]
    simp [Container.resolveRequest, hctx]
  · intro n w cid t p ctx v hp hm hfl hctx hc
    have h1 : Container.resolve (n+2) w cid t =
        Container.resolveRequest (n+1) w cid t p := by
      simp [Container.resolve, hfl, hp, hm]
    rw [h1]
    simp [Container.resolveRequest, hctx, hc]
  · intro n w cid t p ctx v w₂ hp hm hfl hctx hc hb
    constructor
    · have h1 : Container.resolve (n+2) w cid t =
          Container.resolveRequest (n+1) w cid t p := by
        simp [Container.resolve, hfl, hp, hm]
      rw [h1]
      simp [Container.resolveRequest, hctx, hc, hb]
    · simp [eraseResolving, getC_updC_self]
      rfl

/-- Witness for C7: with no active request context, the request-scoped
token 5 of `wC7` fails with the missing-request-context error. -/
theorem claim7_witness :
    (lookupA (getC wC7 0).providers 5 =
        some (normalizeClass 5 (some .request) []) ∧
      (normalizeClass 5 (some .request) []).mode = .request ∧
      (5 : Nat) ∉ (getC wC7 0).resolving ∧ wC7.reqCtx = none) ∧
    Container.resolve 9 wC7 0 5 = .err (.reqContext 5) wC7 :=
  ⟨⟨by decide, by decide, by decide, by decide⟩,
   claim7_request_scope_lifetime.1 7 wC7 0 5
     (normalizeClass 5 (some .request) [])
     (by decide) (by decide) (by decide) (by decide)⟩

/-- Counterexample for C7 as stated: token 5 of `wC7f` is request-scoped
(an explicitly request-mode factory returning a fixed pre-existing
value); resolved inside two scopes with different identifiers it yields
the identical instance 99 both times, not two distinct instances. -/
theorem claim7_counterexample :
    (lookupA (getC wC7f 0).providers 5).map NProvider.mode =
      some .request ∧
    (Container.resolve 9 (enterRequestScope wC7f 1) 0 5).value =
      some 99 ∧
    (Container.resolve 9 (enterRequestScope (exitRequestScope
      ((Container.resolve 9 (enterRequestScope wC7f 1) 0 5).world)) 2) 0
      5).value = some 99 :=
  ⟨by decide, by decide, by decide⟩

-- Claim C9: getByTag traversal.

theorem resolvePlan_winv (fuel : Nat) :
    ∀ (l : List (Nat × Nat)) (w : World),
    WInv w (resolvePlan fuel w l).2 := by
  intro l
  induction l with
  | nil => intro w; exact WInv_refl w
  | cons e rest ih =>
    intro w
    obtain ⟨c, t⟩ := e
    simp only [resolvePlan]
    cases h : Container.resolve fuel w c t with
    | ok v w₂ =>
      have h1 := (resolve_winv fuel).1 w c t
      rw [h] at h1
      exact WInv_trans h1 (ih w₂)
    | err e w₂ =>
      have h1 := (resolve_winv fuel).1 w c t
      rw [h] at h1
      exact WInv_trans h1 (ih w₂)

theorem resolveTagTokens_plan (fuel cid : Nat) :
    ∀ (ts : List Nat) (w : World),
    Container.resolveTagTokens fuel w cid ts =
      resolvePlan fuel w (ts.map (fun t => (cid, t))) := by
  intro ts
  induction ts with
  | nil => intro w; rfl
  | cons t rest ih =>
    intro w
    simp only [Container.resolveTagTokens, List.map_cons, resolvePlan]
    cases h : Container.resolve fuel w cid t with
    | ok v w₂ => simp [ih w₂]
    | err e w₂ => simp [ih w₂]

theorem resolvePlan_append (fuel : Nat) :
    ∀ (l₁ l₂ : List (Nat × Nat)) (w : World),
    resolvePlan fuel w (l₁ ++ l₂) =
      ((resolvePlan fuel w l₁).1 ++
        (resolvePlan fuel (resolvePlan fuel w l₁).2 l₂).1,
       (resolvePlan fuel (resolvePlan fuel w l₁).2 l₂).2) := by
  intro l₁
  induction l₁ with
  | nil => intro l₂ w; rfl
  | cons e rest ih =>
    intro l₂ w
    obtain ⟨c, t⟩ := e
    simp only [List.cons_append, resolvePlan]
    cases h : Container.resolve fuel w c t with
    | ok v w₂ => simp [ih l₂ w₂]
    | err e w₂ => simp [ih l₂ w₂]

theorem exportedTagLoop_plan (fuel cid : Nat) :
    ∀ (ts : List Nat) (w : World),
    Container.exportedTagLoop fuel w cid ts =
      resolvePlan fuel w
        ((ts.filter (fun t => t ∈ (getC w cid).exports)).map
          (fun t => (cid, t))) := by
  intro ts
  induction ts with
  | nil => intro w; rfl
  | cons t rest ih =>
    intro w
    by_cases hex : t ∈ (getC w cid).exports
    · have hfilter :
          (t :: rest).filter (fun x => x ∈ (getC w cid).exports) =
            t :: rest.filter (fun x => x ∈ (getC w cid).exports) := by
        simp [List.filter_cons, hex]
      simp only [Container.exportedTagLoop]
      rw [if_pos hex, hfilter]
      simp only [List.map_cons, resolvePlan]
      cases h : Container.resolve fuel w cid t with
      | ok v w₂ =>
        have h1 := (resolve_winv fuel).1 w cid t
        rw [h] at h1
        have hmeq : (getC w₂ cid).exports = (getC w cid).exports :=
          (h1.2 cid).2.2.2.1
        simp only [ih w₂, hmeq]
      | err e w₂ =>
        have h1 := (resolve_winv fuel).1 w cid t
        rw [h] at h1
        have hmeq : (getC w₂ cid).exports = (getC w cid).exports :=
          (h1.2 cid).2.2.2.1
        simp only [ih w₂, hmeq]
    · have hfilter :
          (t :: rest).filter (fun x => x ∈ (getC w cid).exports) =
            rest.filter (fun x => x ∈ (getC w cid).exports) := by
        simp [List.filter_cons, hex]
      simp only [Container.exportedTagLoop]
      rw [if_neg hex, hfilter]
      exact ih w

theorem childTagLoop_plan (fuel tag : Nat) :
    ∀ (kids : List Nat) (w : World),
    Container.childTagLoop fuel w kids tag =
      resolvePlan fuel w
        ((kids.map (fun k =>
          ((tagTokens (getC w k) tag).filter
            (fun t => t ∈ (getC w k).exports)).map
          (fun t => (k, t)))).flatten) := by
  intro kids
  induction kids with
  | nil => intro w; rfl
  | cons k ks ih =>
    intro w
    simp only [Container.childTagLoop, List.map_cons, List.flatten_cons]
    rw [Container.getExportedByTag, exportedTagLoop_plan]
    rw [resolvePlan_append]
    have hw := resolvePlan_winv fuel
      (((tagTokens (getC w k) tag).filter
        (fun t => t ∈ (getC w k).exports)).map (fun t => (k, t))) w
    have hseg : (ks.map (fun k' =>
        ((tagTokens (getC (resolvePlan fuel w
          (((tagTokens (getC w k) tag).filter
            (fun t => t ∈ (getC w k).exports)).map
            (fun t => (k, t)))).2 k') tag).filter
          (fun t => t ∈ (getC (resolvePlan fuel w
            (((tagTokens (getC w k) tag).filter
              (fun t => t ∈ (getC w k).exports)).map
              (fun t => (k, t)))).2 k').exports)).map
          (fun t => (k', t)))) =
        (ks.map (fun k' =>
          ((tagTokens (getC w k') tag).filter
            (fun t => t ∈ (getC w k').exports)).map
          (fun t => (k', t)))) := by
      apply List.map_congr_left
      intro k' _
      have h1 : (getC (resolvePlan fuel w
          (((tagTokens (getC w k) tag).filter
            (fun t => t ∈ (getC w k).exports)).map
            (fun t => (k, t)))).2 k').tagToTokens =
          (getC w k').tagToTokens := (hw.2 k').2.1
      have h2 : (getC (resolvePlan fuel w
          (((tagTokens (getC w k) tag).filter
            (fun t => t ∈ (getC w k).exports)).map
            (fun t => (k, t)))).2 k').exports =
          (getC w k').exports := (hw.2 k').2.2.2.1
      simp only [tagTokens] at h1 h2 ⊢
      simp only [h1, h2]
    rw [ih, hseg]

theorem tagSegments_congr {w x : World} (h : WInv w x) (tag : Nat)
    (kids : List Nat) :
    kids.map (fun k => ((tagTokens (getC x k) tag).filter
      (fun t => t ∈ (getC x k).exports)).map (fun t => (k, t))) =
    kids.map (fun k => ((tagTokens (getC w k) tag).filter
      (fun t => t ∈ (getC w k).exports)).map (fun t => (k, t))) := by
  apply List.map_congr_left
  intro k _
  have h1 : (getC x k).tagToTokens = (getC w k).tagToTokens := (h.2 k).2.1
  have h2 : (getC x k).exports = (getC w k).exports := (h.2 k).2.2.2.1
  simp only [tagTokens, h1, h2]

theorem tagTokens_congr {w x : World} (h : WInv w x) (g tag : Nat) :
    tagTokens (getC x g) tag = tagTokens (getC w g) tag := by
  simp only [tagTokens, (h.2 g).2.1]

/-- C9 (amended): `Container.getByTag` resolves, in order, every own
token indexed under the tag, then — one level deep, children in
registration order — each child's own exported tagged tokens resolved on
that child (grandchildren's tag indexes are not consulted), then, when a
distinct global container is configured, every tagged token of the global
container resolved on it; each token whose resolution fails is simply
omitted. Formally: `getByTag` equals executing the three-phase
`tagQueryPlan`. -/
theorem claim9_tag_query_best_effort (fuel : Nat) (w : World)
    (cid tag : Nat) :
    Container.getByTag fuel w cid tag =
      resolvePlan fuel w (tagQueryPlan w cid tag) := by
  have hA := resolveTagTokens_plan fuel cid (tagTokens (getC w cid) tag) w
  have hwinvA := resolvePlan_winv fuel
    ((tagTokens (getC w cid) tag).map (fun t => (cid, t))) w
  have hB := childTagLoop_plan fuel tag (getC w cid).children
    (resolvePlan fuel w
      ((tagTokens (getC w cid) tag).map (fun t => (cid, t)))).2
  rw [tagSegments_congr hwinvA tag] at hB
  have hwinvB := resolvePlan_winv fuel
    (((getC w cid).children.map (fun k =>
      ((tagTokens (getC w k) tag).filter
        (fun t => t ∈ (getC w k).exports)).map
      (fun t => (k, t)))).flatten)
    (resolvePlan fuel w
      ((tagTokens (getC w cid) tag).map (fun t => (cid, t)))).2
  have hwinvAB := WInv_trans hwinvA hwinvB
  simp only [Container.getByTag, tagQueryPlan]
  rw [hA, hB]
  have hglob : (getC (resolvePlan fuel
      (resolvePlan fuel w
        ((tagTokens (getC w cid) tag).map (fun t => (cid, t)))).2
      (((getC w cid).children.map (fun k =>
        ((tagTokens (getC w k) tag).filter
          (fun t => t ∈ (getC w k).exports)).map
        (fun t => (k, t)))).flatten)).2 cid).globalC =
      (getC w cid).globalC := (hwinvAB.2 cid).2.2.2.2
  rw [hglob]
  cases hg : (getC w cid).globalC with
  | none =>
    dsimp only
    simp only [List.append_nil]
    rw [resolvePlan_append]
  | some g =>
    dsimp only
    by_cases hgc : g ≠ cid
    · rw [if_pos hgc, if_pos hgc]
      rw [resolveTagTokens_plan fuel g, tagTokens_congr hwinvAB g tag]
      rw [resolvePlan_append fuel
        (((tagTokens (getC w cid) tag).map (fun t => (cid, t))) ++
          ((getC w cid).children.map (fun k =>
            ((tagTokens (getC w k) tag).filter
              (fun t => t ∈ (getC w k).exports)).map
            (fun t => (k, t)))).flatten)
        ((tagTokens (getC w g) tag).map (fun t => (g, t))) w]
      rw [resolvePlan_append]
    · rw [if_neg hgc, if_neg hgc]
      simp only [List.append_nil]
      rw [resolvePlan_append]

/-- Counterexample for C9 as stated: in `wC9` the grandchild container 2
owns, tags and exports token 55, the child 1 re-exports it, and the
parent can resolve 55 — yet `getByTag` on the parent returns nothing,
because the child loop only consults each direct child's own tag index
(no recursion into deeper levels of the child subtree). -/
theorem claim9_counterexample :
    (Container.getByTag 9 wC9 0 9).1 = [] ∧
    (55 : Nat) ∈ tagTokens (getC wC9 2) 9 ∧
    (55 : Nat) ∈ (getC wC9 2).exports ∧
    (55 : Nat) ∈ (getC wC9 1).exports ∧
    (Container.resolve 9 wC9 0 55).value = some 9 :=
  ⟨by decide, by decide, by decide, by decide, by decide⟩

-- Claim C6: init and destroy order of the module compiler.

theorem CM.sizeOf_imports_lt (m : CM) {i : CM} (h : i ∈ m.imports) :
    sizeOf i < sizeOf m := by
  cases m with
  | mk t imps =>
    have h1 : i ∈ imps := h
    have h2 := List.sizeOf_lt_of_mem h1
    simp only [CM.mk.sizeOf_spec]
    omega

theorem append_singleton_eq_cases {α : Type} (l : List α) (a : α)
    (pre : List α) (y : α) (post : List α)
    (h : l ++ [a] = pre ++ y :: post) :
    (post = [] ∧ pre = l ∧ y = a) ∨
    (∃ post₂, post = post₂ ++ [a] ∧ l = pre ++ y :: post₂) := by
  rcases List.eq_nil_or_concat post with hp | ⟨post₂, b, hp⟩
  · subst hp
    have h2 := List.append_inj' h (by simp)
    exact Or.inl ⟨rfl, h2.1.symm, by
      have := h2.2
      simp at this
      exact this.symm⟩
  · subst hp
    simp only [List.concat_eq_append] at h ⊢
    rw [show pre ++ y :: (post₂ ++ [b]) = (pre ++ y :: post₂) ++ [b] by
      simp] at h
    have h2 := List.append_inj' h (by simp)
    have hb : a = b := by
      have := h2.2
      simp at this
      exact this
    exact Or.inr ⟨post₂, by rw [← hb], h2.1⟩

theorem OutPost_refl {vis out : List CM} (hpre : OutPre vis out) :
    OutPost vis out vis out :=
  ⟨⟨[], by simp⟩, fun _ h => h, fun _ => Iff.rfl, hpre⟩

theorem OutPost_trans {vis out v₁ o₁ v₂ o₂ : List CM}
    (h1 : OutPost vis out v₁ o₁) (h2 : OutPost v₁ o₁ v₂ o₂) :
    OutPost vis out v₂ o₂ := by
  obtain ⟨⟨d₁, hd₁⟩, hm₁, hiff₁, _⟩ := h1
  obtain ⟨⟨d₂, hd₂⟩, hm₂, hiff₂, hpre₂⟩ := h2
  refine ⟨⟨d₁ ++ d₂, ?_⟩, fun x hx => hm₂ x (hm₁ x hx),
    fun x => (hiff₂ x).trans (hiff₁ x), hpre₂⟩
  rw [hd₂, hd₁, List.append_assoc]

mutual

theorem visit_post (m : CM) (vis out : List CM)
    (hpre : OutPre vis out)
    (hsz : ∀ x ∈ vis, x ∉ out → sizeOf m < sizeOf x) :
    OutPost vis out (ModuleCompiler.visit m vis out).1
      (ModuleCompiler.visit m vis out).2 ∧
    m ∈ (ModuleCompiler.visit m vis out).1 ∧
    (∀ x, CM.Reach m x → x ∈ (ModuleCompiler.visit m vis out).1) ∧
    (∀ x ∈ (ModuleCompiler.visit m vis out).1, x ∈ vis ∨ CM.Reach m x) ∧
    (m ∉ vis →
      ∃ d, (ModuleCompiler.visit m vis out).2 = out ++ d ++ [m]) := by
  cases m with
  | mk t imps =>
    by_cases hv : (CM.mk t imps) ∈ vis
    · have hvisit : ModuleCompiler.visit (CM.mk t imps) vis out =
          (vis, out) := by
        simp [ModuleCompiler.visit, hv]
      rw [hvisit]
      refine ⟨OutPost_refl hpre, hv, ?_, fun x hx => Or.inl hx,
        fun hnv => absurd hv hnv⟩
      intro x hr
      by_cases ho : (CM.mk t imps) ∈ out
      · exact hpre.2.2.1 _ ho x hr
      · exact absurd (hsz _ hv ho) (lt_irrefl _)
    · have hpre₁ : OutPre (CM.mk t imps :: vis) out := by
        obtain ⟨hnd, hsub, hcl, hdec⟩ := hpre
        exact ⟨hnd, fun x hx => List.mem_cons_of_mem _ (hsub x hx),
          fun y hy x hr => List.mem_cons_of_mem _ (hcl y hy x hr), hdec⟩
      have hsz₁ : ∀ x ∈ (CM.mk t imps :: vis), x ∉ out →
          ∀ i ∈ imps, sizeOf i < sizeOf x := by
        intro x hx hxo i hi
        rcases List.mem_cons.mp hx with hx | hx
        · subst hx
          exact CM.sizeOf_imports_lt (CM.mk t imps) hi
        · exact lt_trans (CM.sizeOf_imports_lt (CM.mk t imps) hi)
            (hsz x hx hxo)
      obtain ⟨hpostL, hmemL, hsoundL⟩ :=
        visitList_post imps (CM.mk t imps :: vis) out hpre₁ hsz₁
      have hvisit : ModuleCompiler.visit (CM.mk t imps) vis out =
          ((ModuleCompiler.visitList imps (CM.mk t imps :: vis) out).1,
           (ModuleCompiler.visitList imps (CM.mk t imps :: vis) out).2 ++
             [CM.mk t imps]) := by
        simp [ModuleCompiler.visit, hv]
      rw [hvisit]
      obtain ⟨⟨d, hd⟩, hmono, hiff, hOP⟩ := hpostL
      obtain ⟨hnd₂, hsub₂, hcl₂, hdec₂⟩ := hOP
      have hmv : CM.mk t imps ∈
          (ModuleCompiler.visitList imps (CM.mk t imps :: vis) out).1 :=
        hmono _ (List.mem_cons_self _ _)
      have hmo : CM.mk t imps ∉
          (ModuleCompiler.visitList imps (CM.mk t imps :: vis) out).2 :=
        ((hiff (CM.mk t imps)).mpr ⟨List.mem_cons_self _ _,
          fun ho => hv (hpre.2.1 _ ho)⟩).2
      have himp_in_out : ∀ i ∈ imps, i ∈
          (ModuleCompiler.visitList imps (CM.mk t imps :: vis) out).2 := by
        intro i hi
        by_contra hno
        have h2 := (hiff i).mp ⟨(hmemL i hi).1, hno⟩
        rcases List.mem_cons.mp h2.1 with he | he
        · rw [he] at hi
          exact absurd (CM.sizeOf_imports_lt (CM.mk t imps) hi)
            (lt_irrefl _)
        · have ha := hsz i he h2.2
          have hb := CM.sizeOf_imports_lt (CM.mk t imps) hi
          omega
      have hclosure : ∀ x, CM.Reach (CM.mk t imps) x → x ∈
          (ModuleCompiler.visitList imps (CM.mk t imps :: vis) out).1 := by
        intro x hr
        cases hr with
        | refl => exact hmv
        | step hi hr' => exact (hmemL _ hi).2 x hr'
      refine ⟨⟨⟨d ++ [CM.mk t imps], by rw [hd, List.append_assoc]⟩,
        fun x hx => hmono x (List.mem_cons_of_mem _ hx), ?_,
        ?_, ?_, ?_, ?_⟩, hmv, hclosure, ?_, ?_⟩
      · intro x
        constructor
        · rintro ⟨hx1, hx2⟩
          have hxne : x ≠ CM.mk t imps := by
            intro he
            exact hx2 (by
              rw [he]
              exact List.mem_append_right _ (by simp))
          have hx2' : x ∉
              (ModuleCompiler.visitList imps
                (CM.mk t imps :: vis) out).2 :=
            fun h => hx2 (List.mem_append_left _ h)
          have h2 := (hiff x).mp ⟨hx1, hx2'⟩
          rcases List.mem_cons.mp h2.1 with he | he
          · exact absurd he hxne
          · exact ⟨he, h2.2⟩
        · rintro ⟨hxv, hxo⟩
          have h2 := (hiff x).mpr ⟨List.mem_cons_of_mem _ hxv, hxo⟩
          have hxne : x ≠ CM.mk t imps := by
            intro he
            rw [he] at hxv
            exact hv hxv
          refine ⟨h2.1, fun hmem => ?_⟩
          rcases List.mem_append.mp hmem with h | h
          · exact h2.2 h
          · exact hxne (List.mem_singleton.mp h)
      · simp [List.nodup_append, hnd₂, hmo]
      · intro x hx
        rcases List.mem_append.mp hx with h | h
        · exact hsub₂ x h
        · rw [List.mem_singleton.mp h]
          exact hmv
      · intro y hy x hr
        rcases List.mem_append.mp hy with h | h
        · exact hcl₂ y h x hr
        · rw [List.mem_singleton.mp h] at hr
          exact hclosure x hr
      · intro pre y post hdecomp i hi
        rcases append_singleton_eq_cases _ _ pre y post hdecomp with
          ⟨hpost, hpre_eq, hy⟩ | ⟨post₂, hpost, heq⟩
        · rw [hpre_eq]
          rw [hy] at hi
          exact himp_in_out i hi
        · exact hdec₂ pre y post₂ heq i hi
      · intro x hx
        rcases hsoundL x hx with hxv | ⟨i, hi, hr⟩
        · rcases List.mem_cons.mp hxv with he | he
          · refine Or.inr ?_
            rw [he]
            exact CM.Reach.refl _
          · exact Or.inl he
        · exact Or.inr (CM.Reach.step hi hr)
      · intro _
        exact ⟨d, by rw [hd, List.append_assoc]⟩
termination_by sizeOf m

theorem visitList_post (L : List CM) (vis out : List CM)
    (hpre : OutPre vis out)
    (hsz : ∀ x ∈ vis, x ∉ out → ∀ i ∈ L, sizeOf i < sizeOf x) :
    OutPost vis out (ModuleCompiler.visitList L vis out).1
      (ModuleCompiler.visitList L vis out).2 ∧
    (∀ m ∈ L, m ∈ (ModuleCompiler.visitList L vis out).1 ∧
      ∀ x, CM.Reach m x → x ∈ (ModuleCompiler.visitList L vis out).1) ∧
    (∀ x ∈ (ModuleCompiler.visitList L vis out).1,
      x ∈ vis ∨ ∃ m ∈ L, CM.Reach m x) := by
  cases L with
  | nil =>
    simp only [ModuleCompiler.visitList]
    exact ⟨OutPost_refl hpre, by simp, fun x hx => Or.inl hx⟩
  | cons m ms =>
    obtain ⟨hpost₁, hm₁, hcl₁, hsound₁, _⟩ :=
      visit_post m vis out hpre (fun x hx hxo => hsz x hx hxo m (by simp))
    have hsz₂ : ∀ x ∈ (ModuleCompiler.visit m vis out).1,
        x ∉ (ModuleCompiler.visit m vis out).2 →
        ∀ i ∈ ms, sizeOf i < sizeOf x := by
      intro x hx hxo i hi
      have h2 := (hpost₁.2.2.1 x).mp ⟨hx, hxo⟩
      exact hsz x h2.1 h2.2 i (by simp [hi])
    obtain ⟨hpost₂, hmem₂, hsound₂⟩ :=
      visitList_post ms (ModuleCompiler.visit m vis out).1
        (ModuleCompiler.visit m vis out).2 hpost₁.2.2.2 hsz₂
    have hvl : ModuleCompiler.visitList (m :: ms) vis out =
        ModuleCompiler.visitList ms (ModuleCompiler.visit m vis out).1
          (ModuleCompiler.visit m vis out).2 := by
      simp [ModuleCompiler.visitList]
    rw [hvl]
    refine ⟨OutPost_trans hpost₁ hpost₂, ?_, ?_⟩
    · intro m' hm'
      rcases List.mem_cons.mp hm' with he | he
      · subst he
        exact ⟨hpost₂.2.1 _ hm₁, fun x hr => hpost₂.2.1 _ (hcl₁ x hr)⟩
      · exact hmem₂ m' he
    · intro x hx
      rcases hsound₂ x hx with hxin | ⟨m', hm', hr⟩
      · rcases hsound₁ x hxin with h | h
        · exact Or.inl h
        · exact Or.inr ⟨m, by simp, h⟩
      · exact Or.inr ⟨m', by simp [hm'], hr⟩
termination_by sizeOf L

end

/-- C6: `getModulesInInitOrder` is a depth-first post-order traversal of
the compiled import graph: it lists exactly the modules reachable from
the root, each distinct module exactly once, every import of a listed
module appears before the module that imports it, and the root is last;
`getModulesInDestroyOrder` is exactly the init order reversed — for every
module graph, diamonds included. -/
theorem claim6_init_destroy_orders (root : CM) :
    (ModuleCompiler.getModulesInInitOrder root).Nodup ∧
    (∀ x, CM.Reach root x ↔
      x ∈ ModuleCompiler.getModulesInInitOrder root) ∧
    (∀ pre m post,
      ModuleCompiler.getModulesInInitOrder root = pre ++ m :: post →
      ∀ i ∈ CM.imports m, i ∈ pre) ∧
    (ModuleCompiler.getModulesInInitOrder root).getLast? = some root ∧
    ModuleCompiler.getModulesInDestroyOrder root =
      (ModuleCompiler.getModulesInInitOrder root).reverse := by
  have hpre : OutPre [] [] := ⟨List.nodup_nil, by simp, by simp, by
    intro pre y post h i hi
    have : ([] : List CM) ≠ pre ++ y :: post := by simp
    exact absurd h this⟩
  obtain ⟨hpost, hmv, hclosure, hsound, hlast⟩ :=
    visit_post root [] [] hpre (by simp)
  obtain ⟨⟨d0, hd0⟩, hmono, hiff, hnd, hsub, hcl₂, hdec⟩ := hpost
  have hO : ModuleCompiler.getModulesInInitOrder root =
      (ModuleCompiler.visit root [] []).2 := rfl
  refine ⟨by rw [hO]; exact hnd, ?_, ?_, ?_, rfl⟩
  · intro x
    rw [hO]
    constructor
    · intro hr
      by_contra hno
      have h2 := (hiff x).mp ⟨hclosure x hr, hno⟩
      simp at h2
    · intro hx
      rcases hsound x (hsub x hx) with h | h
      · simp at h
      · exact h
  · intro pre m post hdecomp i hi
    exact hdec pre m post (hO ▸ hdecomp) i hi
  · rw [hO]
    obtain ⟨d, hd⟩ := hlast (by simp)
    rw [hd]
    simp
/-- Witness for C6: on the diamond graph rooted at `exRoot` the init
order is `[exD, exB, exC, exRoot]` (the shared import D appears once,
before both B and C, root last), and the import of B indeed precedes B. -/
theorem claim6_witness :
    (ModuleCompiler.getModulesInInitOrder exRoot =
      [exD] ++ exB :: [exC, exRoot]) ∧
    (∀ i ∈ CM.imports exB, i ∈ [exD]) :=
  ⟨by decide,
   (claim6_init_destroy_orders exRoot).2.2.1 [exD] exB [exC, exRoot]
     (by decide)⟩

end Denorid
